import Mathlib

set_option maxRecDepth 8000

/- Shallow embedding of the workflow orchestration core of bc-wallet-mobile:
   the workflow provider (reducer plus engine closure, src/unnamed/part_001),
   the WorkflowUtils and WorkflowStorage utilities
   (src/app/src/workflow-architecture-example/ImplementationGuide.tsx.txt),
   and the workflow types
   (src/app/src/workflow-architecture-example/types/workflow.ts.txt).

   Modelling conventions:
   - values of type Record<string, any> are modelled as association lists of
     string keys and string values; opaque payloads the engine never inspects
     are modelled as String;
   - hook callbacks (onStart, onComplete, onCancel, onActivate) run arbitrary
     external code; the embedding records their invocation as an effect and
     keeps, per definition or step, only a flag saying whether the hook is
     present;
   - completionCondition is kept as a Bool valued function of the context
     data, which is the part of the context the engine itself supplies;
   - dispatch of a reducer action is modelled as synchronously applying
     workflowReducer to the current state; every engine call returns the
     resulting state together with the ordered trace of dispatched actions
     and emitted effects;
   - each occurrence of new Date() is modelled by threading an explicit
     clock value (milliseconds since the epoch) through the call. -/

/-- Event names from the WorkflowEvents enum in types/workflow.ts. -/
inductive WorkflowEventType where
  | workflowStarted
  | workflowCompleted
  | workflowCancelled
  | workflowPaused
  | workflowResumed
  | stepStarted
  | stepCompleted
  | stepSkipped
  deriving DecidableEq, Repr

/-- Payload shape emitted on the event bus (interface WorkflowEvent). -/
structure WorkflowEvent where
  type : WorkflowEventType
  workflowId : String
  stepId : Option String
  timestamp : Nat
  data : Option String
  deriving DecidableEq, Repr

/-- One step of a workflow (interface WorkflowStep). The onActivate and
onComplete callbacks are opaque external code, modelled by presence flags;
completionCondition is modelled as a predicate over the context data. -/
structure WorkflowStep where
  id : String
  screen : Option String
  completed : Bool
  required : Bool
  completionCondition : Option (List (String × String) → Bool)
  navigationParams : Option (List (String × String))
  headless : Bool
  dependencies : List String
  hasOnActivate : Bool
  hasOnComplete : Bool

/-- A workflow definition (interface WorkflowDefinition). The lifecycle
hooks are opaque external code, modelled by presence flags. -/
structure WorkflowDefinition where
  id : String
  name : String
  steps : List WorkflowStep
  skippable : Bool
  pausable : Bool
  hasOnStart : Bool
  hasOnComplete : Bool
  hasOnCancel : Bool

/-- One entry of the execution history (interface WorkflowHistoryEntry);
completedAt is milliseconds since the epoch. -/
structure WorkflowHistoryEntry where
  workflowId : String
  stepId : String
  completedAt : Nat
  data : Option String
  deriving DecidableEq, Repr

/-- The single mutable state (interface WorkflowState). -/
structure WorkflowState where
  activeWorkflow : Option WorkflowDefinition
  currentStepId : Option String
  paused : Bool
  history : List WorkflowHistoryEntry
  data : List (String × String)

/-- initialState from the workflow provider. -/
def initialState : WorkflowState :=
  { activeWorkflow := none, currentStepId := none, paused := false
    history := [], data := [] }

/-- Assign one key of a string record, keeping the position of an existing
key and appending a fresh key, as a JavaScript object assignment does. -/
def setKey (m : List (String × String)) (k v : String) : List (String × String) :=
  if m.any (fun p => p.1 == k) then
    m.map (fun p => if p.1 == k then (k, v) else p)
  else
    m ++ [(k, v)]

/-- Spread merge of two string records, as the object spread expression
that puts the fields of b after the fields of a. -/
def mergeData (a b : List (String × String)) : List (String × String) :=
  b.foldl (fun acc p => setKey acc p.1 p.2) a

/-- Reducer actions (type WorkflowAction in the provider). The payload of
ADD_HISTORY_ENTRY additionally carries the clock value with which the
reducer stamps completedAt. -/
inductive WorkflowAction where
  | startWorkflow (workflow : WorkflowDefinition) (data : Option (List (String × String)))
  | stopWorkflow
  | pauseWorkflow
  | resumeWorkflow
  | completeStep (stepId : String) (data : Option String)
  | setCurrentStep (stepId : String)
  | setWorkflowData (key value : String)
  | addHistoryEntry (workflowId stepId : String) (data : Option String) (now : Nat)

/-- The pure state transition function workflowReducer of the provider,
translated case by case. COMPLETE_STEP ignores the data payload, exactly
as in the source, and marks every step with a matching id completed. -/
def workflowReducer (state : WorkflowState) (action : WorkflowAction) : WorkflowState :=
  match action with
  | .startWorkflow w d =>
      { state with activeWorkflow := some w, currentStepId := none,
                   paused := false,
                   data := mergeData state.data (d.getD []) }
  | .stopWorkflow =>
      { state with activeWorkflow := none, currentStepId := none, paused := false }
  | .pauseWorkflow => { state with paused := true }
  | .resumeWorkflow => { state with paused := false }
  | .completeStep stepId _ =>
      match state.activeWorkflow with
      | none => state
      | some w =>
          let updatedWorkflow : WorkflowDefinition :=
            { w with steps := w.steps.map (fun step =>
                if step.id == stepId then { step with completed := true } else step) }
          { state with activeWorkflow := some updatedWorkflow }
  | .setCurrentStep stepId => { state with currentStepId := some stepId }
  | .setWorkflowData k v => { state with data := setKey state.data k v }
  | .addHistoryEntry wid sid d now =>
      { state with history := state.history ++
          [{ workflowId := wid, stepId := sid, completedAt := now, data := d }] }

/-- Helper areDependenciesMet of the provider: no dependency list, or every
listed id resolves to a step whose completed flag is set. -/
def areDependenciesMet (step : WorkflowStep) (workflow : WorkflowDefinition) : Bool :=
  if step.dependencies.isEmpty then
    true
  else
    step.dependencies.all (fun depId =>
      match workflow.steps.find? (fun s => s.id == depId) with
      | some depStep => depStep.completed
      | none => false)

/-- Position at which the findNextStep scan begins: right after the step
named currentStepId, or 0 when that id is absent, since findIndex yields
-1 there. -/
def scanStart (workflow : WorkflowDefinition) (currentStepId : String) : Nat :=
  match workflow.steps.findIdx? (fun s => s.id == currentStepId) with
  | some i => i + 1
  | none => 0

/-- The loop body condition of findNextStep: not completed and
dependencies met. -/
def eligibleStep (workflow : WorkflowDefinition) (step : WorkflowStep) : Bool :=
  !step.completed && areDependenciesMet step workflow

/-- Helper findNextStep of the provider: from the scan start position,
the first later step that is not completed and has its dependencies met. -/
def findNextStep (workflow : WorkflowDefinition) (currentStepId : String) : Option WorkflowStep :=
  (workflow.steps.drop (scanStart workflow currentStepId)).find? (fun step =>
    eligibleStep workflow step)

/-- The module level workflow registry Map, modelled as an association list
with Map.set semantics (replace in place, or append a fresh key). -/
abbrev Registry := List (String × WorkflowDefinition)

/-- registerWorkflow of the engine: workflowRegistry.set(workflow.id, workflow)
with no validation of any kind. -/
def registerWorkflow (r : Registry) (workflow : WorkflowDefinition) : Registry :=
  if (List.any r (fun p => p.1 == workflow.id)) then
    List.map (fun p => if p.1 == workflow.id then (workflow.id, workflow) else p) r
  else
    r ++ [(workflow.id, workflow)]

/-- Map.get on the registry (engine method getWorkflow). -/
def getWorkflow (r : Registry) (workflowId : String) : Option WorkflowDefinition :=
  match (List.find? (fun p => p.1 == workflowId) r) with
  | some p => some p.2
  | none => none

/-- Observable side effects of an engine call: event bus emissions, hook
invocations (the hook body itself is external code), and calls of the
external navigation collaborator. -/
inductive EngineEffect where
  | emit (event : WorkflowEvent)
  | hookWorkflowOnStart (workflowId : String)
  | hookWorkflowOnComplete (workflowId : String)
  | hookWorkflowOnCancel (workflowId : String)
  | hookStepOnActivate (stepId : String)
  | hookStepOnComplete (stepId : String)
  | navigate (screen : String) (params : Option (List (String × String)))
  deriving DecidableEq, Repr

/-- One item of the ordered trace of an engine call: a dispatched reducer
action or an emitted effect. -/
inductive TraceItem where
  | act (action : WorkflowAction)
  | eff (effect : EngineEffect)

mutual

/-- Helper executeStep of the provider. Sets the current step, emits
STEP_STARTED, records the onActivate hook invocation when present,
navigates when the step is not headless and has a screen, and for a
headless step with a completionCondition that holds on the context data
calls completeStep immediately. The fuel argument bounds the recursion
between executeStep and completeStep, which in the source is unbounded. -/
def executeStepGo (fuel : Nat) (state : WorkflowState) (step : WorkflowStep) (now : Nat) :
    WorkflowState × List TraceItem :=
  match fuel with
  | 0 => (state, [])
  | fuel + 1 =>
    match state.activeWorkflow with
    | none => (state, [])
    | some w =>
      let s1 := workflowReducer state (.setCurrentStep step.id)
      let tr1 : List TraceItem :=
        [.act (.setCurrentStep step.id),
         .eff (.emit { type := .stepStarted, workflowId := w.id, stepId := some step.id,
                       timestamp := now, data := none })]
        ++ (if step.hasOnActivate then [.eff (.hookStepOnActivate step.id)] else [])
        ++ (match step.headless, step.screen with
            | false, some sc => [.eff (.navigate sc step.navigationParams)]
            | _, _ => [])
      match step.headless, step.completionCondition with
      | true, some cond =>
          if cond s1.data then
            let r := completeStepGo fuel s1 step.id none now
            (r.1, tr1 ++ r.2)
          else (s1, tr1)
      | _, _ => (s1, tr1)

/-- Engine method completeStep. A silent no-op when no workflow is active
or when no step of the active workflow carries stepId; otherwise dispatch
COMPLETE_STEP and ADD_HISTORY_ENTRY, emit STEP_COMPLETED, record the step
onComplete hook when present, and then either finish the workflow (every
required step completed) or activate the step found by findNextStep. -/
def completeStepGo (fuel : Nat) (state : WorkflowState) (stepId : String) (data : Option String)
    (now : Nat) : WorkflowState × List TraceItem :=
  match fuel with
  | 0 => (state, [])
  | fuel + 1 =>
    match state.activeWorkflow with
    | none => (state, [])
    | some w =>
      match w.steps.find? (fun s => s.id == stepId) with
      | none => (state, [])
      | some step =>
        let s1 := workflowReducer state (.completeStep stepId data)
        let s2 := workflowReducer s1 (.addHistoryEntry w.id stepId data now)
        let tr1 : List TraceItem :=
          [.act (.completeStep stepId data),
           .act (.addHistoryEntry w.id stepId data now),
           .eff (.emit { type := .stepCompleted, workflowId := w.id, stepId := some stepId,
                         timestamp := now, data := data })]
          ++ (if step.hasOnComplete then [.eff (.hookStepOnComplete stepId)] else [])
        match s2.activeWorkflow with
        | none => (s2, tr1)
        | some w2 =>
          if (w2.steps.filter (fun s => s.required)).all
              (fun s => s.completed || s.id == stepId) then
            let tr2 := tr1
              ++ [.eff (.emit { type := .workflowCompleted, workflowId := w2.id, stepId := none,
                                timestamp := now, data := none })]
              ++ (if w2.hasOnComplete then [.eff (.hookWorkflowOnComplete w2.id)] else [])
              ++ [.act .stopWorkflow]
            (workflowReducer s2 .stopWorkflow, tr2)
          else
            match findNextStep w2 stepId with
            | some nextStep =>
                let r := executeStepGo fuel s2 nextStep now
                (r.1, tr1 ++ r.2)
            | none => (s2, tr1)

end

/-- Fuel that is always sufficient for the cascade of an engine call,
since every recursive completeStep call targets a step strictly later in
declaration order. -/
def engineFuel (state : WorkflowState) : Nat :=
  match state.activeWorkflow with
  | some w => 2 * w.steps.length + 4
  | none => 1

/-- Engine method completeStep at its default fuel. -/
def completeStep (state : WorkflowState) (stepId : String) (data : Option String) (now : Nat) :
    WorkflowState × List TraceItem :=
  completeStepGo (engineFuel state) state stepId data now

/-- Engine method skipToStep: a no-op without an active workflow or when
stepId names no step of it; otherwise executeStep on the found step, with
no dependency check and no completion marking of its own. -/
def skipToStep (state : WorkflowState) (stepId : String) (now : Nat) :
    WorkflowState × List TraceItem :=
  match state.activeWorkflow with
  | none => (state, [])
  | some w =>
      match w.steps.find? (fun s => s.id == stepId) with
      | some step => executeStepGo (engineFuel state) state step now
      | none => (state, [])

/-- Engine method startWorkflow: throws when the id is not registered;
otherwise dispatches START_WORKFLOW, emits WORKFLOW_STARTED, records the
workflow onStart hook when present, and activates the first step in
declaration order whose completed flag is not set, with no check of that
step having its dependencies met and no check for an already active
workflow. -/
def startWorkflow (registry : Registry) (state : WorkflowState) (workflowId : String)
    (contextData : Option (List (String × String))) (now : Nat) :
    Except String (WorkflowState × List TraceItem) :=
  match getWorkflow registry workflowId with
  | none => .error ("Workflow with id " ++ workflowId ++ " not found")
  | some w =>
      let s1 := workflowReducer state (.startWorkflow w contextData)
      let tr1 : List TraceItem :=
        [.act (.startWorkflow w contextData),
         .eff (.emit { type := .workflowStarted, workflowId := workflowId, stepId := none,
                       timestamp := now, data := none })]
        ++ (if w.hasOnStart then [.eff (.hookWorkflowOnStart workflowId)] else [])
      match w.steps.find? (fun step => !step.completed) with
      | some firstIncompleteStep =>
          let r := executeStepGo (2 * w.steps.length + 4) s1 firstIncompleteStep now
          .ok (r.1, tr1 ++ r.2)
      | none => .ok (s1, tr1)

/-- Engine method stopWorkflow: when a workflow is active, emit
WORKFLOW_CANCELLED and record the onCancel hook when present; dispatch
STOP_WORKFLOW in every case. -/
def stopWorkflow (state : WorkflowState) (now : Nat) : WorkflowState × List TraceItem :=
  let tr1 : List TraceItem :=
    match state.activeWorkflow with
    | some w =>
        [.eff (.emit { type := .workflowCancelled, workflowId := w.id, stepId := none,
                       timestamp := now, data := none })]
        ++ (if w.hasOnCancel then [.eff (.hookWorkflowOnCancel w.id)] else [])
    | none => []
  (workflowReducer state .stopWorkflow, tr1 ++ [.act .stopWorkflow])

/-- Engine method pauseWorkflow: only when a workflow is active, dispatch
PAUSE_WORKFLOW and emit WORKFLOW_PAUSED. -/
def pauseWorkflow (state : WorkflowState) (now : Nat) : WorkflowState × List TraceItem :=
  match state.activeWorkflow with
  | some w =>
      (workflowReducer state .pauseWorkflow,
       [.act .pauseWorkflow,
        .eff (.emit { type := .workflowPaused, workflowId := w.id, stepId := none,
                      timestamp := now, data := none })])
  | none => (state, [])

/-- Engine method resumeWorkflow: only when a workflow is active, dispatch
RESUME_WORKFLOW and emit WORKFLOW_RESUMED; nothing else happens, in
particular no step activation of any kind. -/
def resumeWorkflow (state : WorkflowState) (now : Nat) : WorkflowState × List TraceItem :=
  match state.activeWorkflow with
  | some w =>
      (workflowReducer state .resumeWorkflow,
       [.act .resumeWorkflow,
        .eff (.emit { type := .workflowResumed, workflowId := w.id, stepId := none,
                      timestamp := now, data := none })])
  | none => (state, [])

namespace WorkflowUtils

/-- Record returned by WorkflowUtils.getProgress; percentage is modelled
as an exact rational in place of the JavaScript float. -/
structure Progress where
  completed : Nat
  total : Nat
  percentage : ℚ
  requiredCompleted : Nat
  requiredTotal : Nat
  deriving DecidableEq, Repr

/-- WorkflowUtils.getProgress: visible counts range over the steps that
are not headless, required counts over the steps flagged required, and
percentage is the guarded ratio of completed visible steps. -/
def getProgress (workflow : WorkflowDefinition) : Progress :=
  let visibleSteps := workflow.steps.filter (fun step => !step.headless)
  let requiredSteps := workflow.steps.filter (fun step => step.required)
  let completed := (visibleSteps.filter (fun step => step.completed)).length
  let requiredCompleted := (requiredSteps.filter (fun step => step.completed)).length
  { completed := completed
    total := visibleSteps.length
    percentage :=
      if visibleSteps.length > 0 then
        ((completed : ℚ) / (visibleSteps.length : ℚ)) * 100
      else 0
    requiredCompleted := requiredCompleted
    requiredTotal := requiredSteps.length }

/-- Per step body of the validation fold of WorkflowUtils.validate: the
accumulator carries the ids seen so far and the violations collected so
far; per step it adds, in source order, a duplicate id violation, one
violation per dependency id not in the seen set (the own id of the step
is added to the set first), a violation for a headless step without
onActivate and completionCondition, and a violation for a non headless
step without a screen. -/
def stepFoldFn (acc : List String × List String) (step : WorkflowStep) :
    List String × List String :=
  let seen := acc.1
  let dupErrs :=
    if seen.contains step.id then ["Duplicate step ID: " ++ step.id] else []
  let seen2 := seen ++ [step.id]
  let depErrs := step.dependencies.filterMap (fun depId =>
    if seen2.contains depId then none
    else some ("Step " ++ step.id ++ " depends on non-existent step: " ++ depId))
  let headlessErrs :=
    if step.headless && !step.hasOnActivate && step.completionCondition.isNone then
      ["Headless step " ++ step.id ++ " must have onActivate or completionCondition"]
    else []
  let screenErrs :=
    if !step.headless && step.screen.isNone then
      ["Step " ++ step.id ++ " must have a screen or be marked as headless"]
    else []
  (seen2, acc.2 ++ dupErrs ++ depErrs ++ headlessErrs ++ screenErrs)

/-- WorkflowUtils.validate: collects the header violations, then walks the
steps with a growing set of already seen step ids through stepFoldFn.
Returns the valid flag together with all collected messages. -/
def validate (workflow : WorkflowDefinition) : Bool × List String :=
  let headErrors :=
    (if workflow.id == "" then ["Workflow must have an id"] else [])
    ++ (if workflow.name == "" then ["Workflow must have a name"] else [])
    ++ (if workflow.steps.length == 0 then ["Workflow must have at least one step"] else [])
  let stepFold := workflow.steps.foldl stepFoldFn ([], [])
  let errors := headErrors ++ stepFold.2
  (errors.isEmpty, errors)

end WorkflowUtils

namespace WorkflowStorage

/-- Milliseconds per day. -/
def msPerDay : Nat := 86400000

/-- Numerator based extraction of the year of era from the day of era, as
in the standard proleptic Gregorian conversion. -/
def yoeOf (doe : Nat) : Nat :=
  (doe - doe / 1460 + doe / 36524 - doe / 146096) / 365

/-- First day of era of a year of era, counted in the March based calendar
of the conversion. -/
def yearStart (yoe : Nat) : Nat :=
  365 * yoe + yoe / 4 - yoe / 100

/-- Conversion of a day count since 1970-01-01 to a calendar date
(year, month, day), following the proleptic Gregorian calendar of the
ECMAScript Date specification. Modelled from the spec: the Date platform
built-ins used by WorkflowStorage are not part of the repository source. -/
def civilFromDays (z0 : Nat) : Nat × Nat × Nat :=
  let z := z0 + 719468
  let era := z / 146097
  let doe := z % 146097
  let yoe := yoeOf doe
  let y := yoe + era * 400
  let doy := doe - (365 * yoe + yoe / 4 - yoe / 100)
  let mp := (5 * doy + 2) / 153
  let d := doy - (153 * mp + 2) / 5 + 1
  let m := if mp < 10 then mp + 3 else mp - 9
  (if m ≤ 2 then y + 1 else y, m, d)

/-- Conversion of a calendar date to the day count since 1970-01-01,
inverse of civilFromDays on valid dates. -/
def daysFromCivil (y0 m d : Nat) : Nat :=
  let y := if m ≤ 2 then y0 - 1 else y0
  let era := y / 400
  let yoe := y % 400
  let doy := (153 * (if m > 2 then m - 3 else m + 9) + 2) / 5 + d - 1
  let doe := yoe * 365 + yoe / 4 - yoe / 100 + doy
  era * 146097 + doe - 719468

/-- Decimal digit character of a value below ten. -/
def digitChar (n : Nat) : Char := Char.ofNat (48 + n)

/-- Fixed width decimal rendering, most significant digit first. -/
def padNum : Nat → Nat → List Char
  | 0, _ => []
  | w + 1, n => digitChar (n / 10 ^ w) :: padNum w (n % 10 ^ w)

/-- Read exactly w decimal digits, extending the accumulator. -/
def readFixedAux (acc : Nat) : Nat → List Char → Option (Nat × List Char)
  | 0, cs => some (acc, cs)
  | _ + 1, [] => none
  | w + 1, c :: cs =>
      if c.isDigit then readFixedAux (acc * 10 + (c.toNat - 48)) w cs else none

/-- Consume one expected character. -/
def expectChar (c : Char) : List Char → Option (List Char)
  | [] => none
  | x :: xs => if x == c then some xs else none

/-- Date.prototype.toISOString of the ECMAScript specification for
timestamps between the epoch and the year 9999, as the character list
YYYY-MM-DDTHH:MM:SS.mmmZ. Modelled from the spec: the history timestamps
are stored in a sortable textual form; the Date platform built-ins used
by WorkflowStorage are not part of the repository source. -/
def toISOChars (t : Nat) : List Char :=
  let days := t / msPerDay
  let ms := t % msPerDay
  let c := civilFromDays days
  padNum 4 c.1 ++ '-' :: (padNum 2 c.2.1 ++ '-' :: (padNum 2 c.2.2 ++ 'T' ::
    (padNum 2 (ms / 3600000) ++ ':' :: (padNum 2 (ms / 60000 % 60) ++ ':' ::
    (padNum 2 (ms / 1000 % 60) ++ '.' :: (padNum 3 (ms % 1000) ++ ['Z']))))))

/-- String form of toISOChars. -/
def toISOString (t : Nat) : String := String.mk (toISOChars t)

/-- Read exactly w digits followed by one expected separator character. -/
def readNumSep (w : Nat) (sep : Char) (cs : List Char) : Option (Nat × List Char) :=
  match readFixedAux 0 w cs with
  | none => none
  | some (v, rest) =>
    match expectChar sep rest with
    | none => none
    | some rest2 => some (v, rest2)

/-- Final stage of the ISO timestamp parser: coarse range checks on the
parsed fields, the end of input, and recombination through daysFromCivil. -/
def parseDone (y mo d h mi sec msv : Nat) (cs : List Char) : Option Nat :=
  if 1 ≤ mo && mo ≤ 12 && 1 ≤ d && d ≤ 31 && h ≤ 23 && mi ≤ 59 && sec ≤ 59
      && cs.isEmpty then
    some (daysFromCivil y mo d * msPerDay
      + h * 3600000 + mi * 60000 + sec * 1000 + msv)
  else none

def parseMillis (y mo d h mi sec : Nat) (cs : List Char) : Option Nat :=
  match readNumSep 3 'Z' cs with
  | none => none
  | some p => parseDone y mo d h mi sec p.1 p.2

def parseSecond (y mo d h mi : Nat) (cs : List Char) : Option Nat :=
  match readNumSep 2 '.' cs with
  | none => none
  | some p => parseMillis y mo d h mi p.1 p.2

def parseMinute (y mo d h : Nat) (cs : List Char) : Option Nat :=
  match readNumSep 2 ':' cs with
  | none => none
  | some p => parseSecond y mo d h p.1 p.2

def parseHour (y mo d : Nat) (cs : List Char) : Option Nat :=
  match readNumSep 2 ':' cs with
  | none => none
  | some p => parseMinute y mo d p.1 p.2

def parseDay (y mo : Nat) (cs : List Char) : Option Nat :=
  match readNumSep 2 'T' cs with
  | none => none
  | some p => parseHour y mo p.1 p.2

def parseMonth (y : Nat) (cs : List Char) : Option Nat :=
  match readNumSep 2 '-' cs with
  | none => none
  | some p => parseDay y p.1 p.2

/-- Parser of the exact toISOString shape, one field per stage, as the
Date constructor applied to such a string. Modelled from the spec:
deserialization restores the stored instant; a character list of any
other shape yields none, standing for an invalid date. -/
def parseISOChars (cs : List Char) : Option Nat :=
  match readNumSep 4 '-' cs with
  | none => none
  | some p => parseMonth p.1 p.2

/-- Date parsing on strings. -/
def parseISO (s : String) : Option Nat := parseISOChars s.data

/-- Step record as JSON.stringify persists it: the function valued fields
(completionCondition and the hooks) are dropped, every plain field is kept. -/
structure StoredStep where
  id : String
  screen : Option String
  completed : Bool
  required : Bool
  navigationParams : Option (List (String × String))
  headless : Bool
  dependencies : List String
  deriving DecidableEq, Repr

/-- Definition record as JSON.stringify persists it. -/
structure StoredDefinition where
  id : String
  name : String
  steps : List StoredStep
  skippable : Bool
  pausable : Bool
  deriving DecidableEq, Repr

/-- History entry of a storage record, generic in the timestamp type:
Nat for an in-memory record (epoch milliseconds), String for a stored one. -/
structure StorageHistoryEntry (τ : Type) where
  workflowId : String
  stepId : String
  completedAt : τ
  data : Option String
  deriving DecidableEq, Repr

/-- Workflow state as WorkflowStorage handles it, generic in the timestamp
type of the history entries; every field other than history passes through
serialization unchanged. -/
structure StorageState (τ : Type) where
  activeWorkflow : Option StoredDefinition
  currentStepId : Option String
  paused : Bool
  history : List (StorageHistoryEntry τ)
  data : List (String × String)
  deriving DecidableEq, Repr

/-- WorkflowStorage.serialize: the spread keeps every field and rewrites
each history entry by converting completedAt with toISOString. -/
def serialize (state : StorageState Nat) : StorageState String :=
  { activeWorkflow := state.activeWorkflow
    currentStepId := state.currentStepId
    paused := state.paused
    history := state.history.map (fun entry =>
      { workflowId := entry.workflowId, stepId := entry.stepId,
        completedAt := toISOString entry.completedAt, data := entry.data })
    data := state.data }

/-- WorkflowStorage.deserialize: the spread keeps every field and rewrites
each history entry by converting completedAt back with the Date
constructor; a string the parser rejects stands for an invalid date and is
mapped to the epoch here, a case the round trip theorems never reach. -/
def deserialize (state : StorageState String) : StorageState Nat :=
  { activeWorkflow := state.activeWorkflow
    currentStepId := state.currentStepId
    paused := state.paused
    history := state.history.map (fun entry =>
      { workflowId := entry.workflowId, stepId := entry.stepId,
        completedAt := (parseISO entry.completedAt).getD 0, data := entry.data })
    data := state.data }

end WorkflowStorage

/-- Count of the emissions of one event type within a trace. -/
def countEmits (tr : List TraceItem) (ty : WorkflowEventType) : Nat :=
  tr.countP (fun item =>
    match item with
    | .eff (.emit e) => e.type == ty
    | _ => false)

/-- The step ids of a definition in declaration order. -/
def stepIds (w : WorkflowDefinition) : List String :=
  w.steps.map (fun s => s.id)

namespace WorkflowUtils

/-- Declarative reading of the validity checks of WorkflowUtils.validate:
nonempty id and name, at least one step, and, per step, an id distinct
from every id declared before it, dependencies naming only ids declared
at or before the step itself, headless steps carrying onActivate or a
completionCondition, and non headless steps carrying a screen. Stated
from the words of the claim for comparison with the executable validate. -/
def validSpec (w : WorkflowDefinition) : Prop :=
  w.id ≠ "" ∧ w.name ≠ "" ∧ w.steps ≠ [] ∧
  (∀ l1 st l2, w.steps = l1 ++ st :: l2 →
    (st.id ∉ l1.map (fun s => s.id)) ∧
    (∀ dep ∈ st.dependencies, dep ∈ l1.map (fun s => s.id) ++ [st.id]) ∧
    (st.headless = true → (st.hasOnActivate = true ∨ st.completionCondition.isSome = true)) ∧
    (st.headless = false → st.screen.isSome = true))

end WorkflowUtils

/-- Convenience constructor for concrete steps used in the theorems below:
no completion condition, no navigation parameters, no hooks. -/
def mkStep (i : String) (sc : Option String) (comp req hl : Bool)
    (deps : List String) : WorkflowStep :=
  { id := i, screen := sc, completed := comp, required := req,
    completionCondition := none, navigationParams := none, headless := hl,
    dependencies := deps, hasOnActivate := false, hasOnComplete := false }

/-- Convenience constructor for concrete definitions used in the theorems
below: no flags, no hooks. -/
def mkWorkflow (i : String) (steps : List WorkflowStep) : WorkflowDefinition :=
  { id := i, name := "Workflow " ++ i, steps := steps, skippable := false,
    pausable := false, hasOnStart := false, hasOnComplete := false,
    hasOnCancel := false }

/-- Fixture: a workflow whose first declared step depends on the second. -/
def wfDep : WorkflowDefinition :=
  mkWorkflow "wdep"
    [mkStep "X" (some "SX") false true false ["Y"],
     mkStep "Y" (some "SY") false true false []]

/-- Fixture: two independent interactive required steps. -/
def wfAB : WorkflowDefinition :=
  mkWorkflow "wab"
    [mkStep "A" (some "SA") false true false [],
     mkStep "B" (some "SB") false true false []]

/-- Fixture: one interactive required step. -/
def wfSingle : WorkflowDefinition :=
  mkWorkflow "wone" [mkStep "A" (some "SA") false true false []]

/-- Fixture: an interactive step whose navigation parameters hold a
placeholder of the template form. -/
def wfNav : WorkflowDefinition :=
  mkWorkflow "wnav"
    [{ mkStep "N" (some "S") false true false [] with
        navigationParams := some [("p", "\x7b\x7bname\x7d\x7d")] }]

/-- Fixture: a required interactive step followed by an optional headless
step whose completion condition always holds. -/
def wfHeadless : WorkflowDefinition :=
  mkWorkflow "whl"
    [mkStep "A" (some "SA") false true false [],
     { mkStep "H" none false false true [] with
        completionCondition := some (fun _ => true) }]

/-- Fixture: a definition violating the validation rules: empty id, empty
name, no steps. -/
def wfBad : WorkflowDefinition := mkWorkflow "" []

/-- Convenience constructor for event payloads, used in statements. -/
def mkEvent (ty : WorkflowEventType) (wid : String) (sid : Option String) (ts : Nat)
    (d : Option String) : WorkflowEvent :=
  { type := ty, workflowId := wid, stepId := sid, timestamp := ts, data := d }

/-- Convenience constructor for concrete states used in the theorems
below: empty history and data unless stated. -/
def mkState (w : Option WorkflowDefinition) (cur : Option String) (p : Bool) : WorkflowState :=
  { activeWorkflow := w, currentStepId := cur, paused := p, history := [], data := [] }

/-- Fixture: wab active, step A current, not paused. -/
def stAB : WorkflowState := mkState (some wfAB) (some "A") false

/-- Fixture: wab active, step A current, paused. -/
def stABPaused : WorkflowState := mkState (some wfAB) (some "A") true

/-- Fixture: wone active with its step already completed, as the first
start and completion leave it. -/
def stSingleDone : WorkflowState :=
  { activeWorkflow := some { wfSingle with
      steps := [mkStep "A" (some "SA") true true false []] },
    currentStepId := some "A", paused := false,
    history := [{ workflowId := "wone", stepId := "A", completedAt := 1, data := none }],
    data := [] }

/-- Fixture: wnav active with the key name bound in the data mapping. -/
def stNav : WorkflowState :=
  { activeWorkflow := some wfNav, currentStepId := none, paused := false,
    history := [], data := [("name", "alice")] }

/-- Fixture: whl active, step A current. -/
def stHeadless : WorkflowState := mkState (some wfHeadless) (some "A") false

namespace WorkflowStorage

theorem yoeOf_step (doe : Nat) : yoeOf doe ≤ yoeOf (doe + 1) := by
  unfold yoeOf
  apply Nat.div_le_div_right
  omega

theorem yoeOf_mono {a b : Nat} (h : a ≤ b) : yoeOf a ≤ yoeOf b := by
  induction b with
  | zero => simp_all
  | succ n ih =>
    rcases Nat.lt_or_ge a (n + 1) with h2 | h2
    · exact Nat.le_trans (ih (by omega)) (yoeOf_step n)
    · have h3 : a = n + 1 := by omega
      subst h3; exact Nat.le_refl _

theorem yoeOf_start : ∀ y, y < 400 → yoeOf (yearStart y) = y := by decide

theorem yoeOf_end : ∀ y, y < 399 → yoeOf (yearStart (y + 1) - 1) = y := by decide

theorem yoeOf_last : yoeOf 146096 = 399 := by decide

theorem yoe_window (doe : Nat) (h : doe < 146097) :
    yearStart (yoeOf doe) ≤ doe ∧ doe ≤ yearStart (yoeOf doe) + 365 ∧ yoeOf doe ≤ 399 := by
  have hc : yoeOf doe ≤ 399 := by
    calc yoeOf doe ≤ yoeOf 146096 := yoeOf_mono (by omega)
    _ = 399 := yoeOf_last
  refine ⟨?_, ?_, hc⟩
  · by_contra hlt
    push_neg at hlt
    have hy1 : 1 ≤ yoeOf doe := by
      by_contra h0
      push_neg at h0
      interval_cases h2 : yoeOf doe
      · simp [yearStart] at hlt
    have key := yoeOf_end (yoeOf doe - 1) (by omega)
    have heq : yoeOf doe - 1 + 1 = yoeOf doe := by omega
    rw [heq] at key
    have hle : doe ≤ yearStart (yoeOf doe) - 1 := by omega
    have hm := yoeOf_mono hle
    omega
  · by_contra hgt
    push_neg at hgt
    rcases Nat.lt_or_ge (yoeOf doe) 399 with h399 | h399
    · have hstep : yearStart (yoeOf doe + 1) ≤ yearStart (yoeOf doe) + 366 := by
        unfold yearStart
        omega
      have hle : yearStart (yoeOf doe + 1) ≤ doe := by omega
      have hm := yoeOf_mono hle
      rw [yoeOf_start (yoeOf doe + 1) (by omega)] at hm
      omega
    · have h1 : yoeOf doe = 399 := by omega
      rw [h1] at hgt
      have h2 : yearStart 399 = 145731 := by decide
      omega

theorem doy_split : ∀ doy, doy < 366 →
    (5 * doy + 2) / 153 ≤ 11 ∧
    (153 * ((5 * doy + 2) / 153) + 2) / 5 ≤ doy ∧
    doy - (153 * ((5 * doy + 2) / 153) + 2) / 5 ≤ 30 ∧
    (153 * ((5 * doy + 2) / 153) + 2) / 5 +
      (doy - (153 * ((5 * doy + 2) / 153) + 2) / 5 + 1) - 1 = doy := by
  decide

theorem daysFromCivil_civilFromDays (z : Nat) :
    daysFromCivil (civilFromDays z).1 (civilFromDays z).2.1 (civilFromDays z).2.2 = z := by
  unfold civilFromDays daysFromCivil
  simp only []
  set z' := z + 719468 with hz'
  have hdoe : z' % 146097 < 146097 := Nat.mod_lt _ (by omega)
  set era := z' / 146097 with hera
  set doe := z' % 146097 with hdoedef
  have hwin := yoe_window doe hdoe
  unfold yearStart at hwin
  set yoe := yoeOf doe with hyoe
  obtain ⟨hlo, hhi, hy399⟩ := hwin
  set doy := doe - (365 * yoe + yoe / 4 - yoe / 100) with hdoy
  have hdoy366 : doy < 366 := by omega
  have hds := doy_split doy hdoy366
  obtain ⟨hmp11, hmd_le, hmd30, hmd_eq⟩ := hds
  set mp := (5 * doy + 2) / 153 with hmp
  set dd := doy - (153 * mp + 2) / 5 + 1 with hdd
  by_cases h10 : mp < 10
  · have hm1 : ¬ (mp + 3 ≤ 2) := by omega
    have hm2 : mp + 3 > 2 := by omega
    simp only [if_pos h10, if_neg hm1, if_pos hm2]
    have hsub : mp + 3 - 3 = mp := by omega
    rw [hsub]
    have hera2 : (yoe + era * 400) / 400 = era := by omega
    have hyoe2 : (yoe + era * 400) % 400 = yoe := by omega
    rw [hera2, hyoe2]
    omega
  · have hm1 : mp - 9 ≤ 2 := by omega
    simp only [if_neg h10, if_pos hm1]
    have hm2 : ¬ (mp - 9 > 2) := by omega
    simp only [if_neg hm2]
    have hsub : mp - 9 + 9 = mp := by omega
    rw [hsub]
    have hy1 : yoe + era * 400 + 1 - 1 = yoe + era * 400 := by omega
    rw [hy1]
    have hera2 : (yoe + era * 400) / 400 = era := by omega
    have hyoe2 : (yoe + era * 400) % 400 = yoe := by omega
    rw [hera2, hyoe2]
    omega

end WorkflowStorage

namespace WorkflowStorage

theorem digitChar_facts :
    ∀ d, d < 10 → ((digitChar d).isDigit = true ∧ (digitChar d).toNat = 48 + d) := by
  decide

theorem readFixedAux_pad : ∀ (w n acc : Nat) (rest : List Char), n < 10 ^ w →
    readFixedAux acc w (padNum w n ++ rest) = some (acc * 10 ^ w + n, rest) := by
  intro w
  induction w with
  | zero =>
    intro n acc rest h
    have hn : n = 0 := by omega
    subst hn
    simp [padNum, readFixedAux]
  | succ w ih =>
    intro n acc rest h
    have hd : n / 10 ^ w < 10 := by
      apply Nat.div_lt_of_lt_mul
      calc n < 10 ^ (w + 1) := h
      _ = 10 ^ w * 10 := by ring
    have hfacts := digitChar_facts (n / 10 ^ w) hd
    simp only [padNum, List.cons_append, readFixedAux, hfacts.1, if_true, List.append_eq]
    have h2 : (digitChar (n / 10 ^ w)).toNat - 48 = n / 10 ^ w := by
      rw [hfacts.2, Nat.add_sub_cancel_left]
    rw [h2]
    rw [ih (n % 10 ^ w) _ rest (Nat.mod_lt _ (by positivity))]
    congr 2
    calc (acc * 10 + n / 10 ^ w) * 10 ^ w + n % 10 ^ w
        = acc * (10 ^ w * 10) + (10 ^ w * (n / 10 ^ w) + n % 10 ^ w) := by ring
      _ = acc * 10 ^ (w + 1) + n := by rw [Nat.div_add_mod]; ring

theorem expectChar_cons (c : Char) (rest : List Char) :
    expectChar c (c :: rest) = some rest := by
  simp [expectChar]

theorem civilFromDays_bounds (z : Nat) (hz : z ≤ 2932896) :
    1 ≤ (civilFromDays z).2.1 ∧ (civilFromDays z).2.1 ≤ 12 ∧
    1 ≤ (civilFromDays z).2.2 ∧ (civilFromDays z).2.2 ≤ 31 ∧
    (civilFromDays z).1 ≤ 9999 := by
  unfold civilFromDays
  simp only []
  set z' := z + 719468 with hz'
  have hdoe : z' % 146097 < 146097 := Nat.mod_lt _ (by omega)
  have hzsplit : 146097 * (z' / 146097) + z' % 146097 = z' := Nat.div_add_mod z' 146097
  set era := z' / 146097 with hera
  set doe := z' % 146097 with hdoedef
  have hwin := yoe_window doe hdoe
  unfold yearStart at hwin
  set yoe := yoeOf doe with hyoe
  obtain ⟨hlo, hhi, hy399⟩ := hwin
  set doy := doe - (365 * yoe + yoe / 4 - yoe / 100) with hdoy
  have hdoy366 : doy < 366 := by omega
  have hds := doy_split doy hdoy366
  obtain ⟨hmp11, hmd_le, hmd30, hmd_eq⟩ := hds
  set mp := (5 * doy + 2) / 153 with hmp
  by_cases h10 : mp < 10
  · have hm1 : ¬ (mp + 3 ≤ 2) := by omega
    simp only [if_pos h10, if_neg hm1]
    refine ⟨by omega, by omega, by omega, by omega, by omega⟩
  · have hm1 : mp - 9 ≤ 2 := by omega
    simp only [if_neg h10, if_pos hm1]
    refine ⟨by omega, by omega, by omega, by omega, ?_⟩
    omega

end WorkflowStorage


namespace WorkflowStorage

theorem readNumSep_pad (w n : Nat) (sep : Char) (rest : List Char) (h : n < 10 ^ w) :
    readNumSep w sep (padNum w n ++ sep :: rest) = some (n, rest) := by
  unfold readNumSep
  rw [readFixedAux_pad w n 0 _ h]
  simp only [expectChar_cons, Nat.zero_mul, Nat.zero_add]

theorem parseISOChars_pad (yv : Nat) (rest : List Char) (h : yv < 10 ^ 4) :
    parseISOChars (padNum 4 yv ++ '-' :: rest) = parseMonth yv rest := by
  unfold parseISOChars
  rw [readNumSep_pad 4 yv '-' rest h]

theorem parseMonth_pad (yv mov : Nat) (rest : List Char) (h : mov < 10 ^ 2) :
    parseMonth yv (padNum 2 mov ++ '-' :: rest) = parseDay yv mov rest := by
  unfold parseMonth
  rw [readNumSep_pad 2 mov '-' rest h]

theorem parseDay_pad (yv mov dv : Nat) (rest : List Char) (h : dv < 10 ^ 2) :
    parseDay yv mov (padNum 2 dv ++ 'T' :: rest) = parseHour yv mov dv rest := by
  unfold parseDay
  rw [readNumSep_pad 2 dv 'T' rest h]

theorem parseHour_pad (yv mov dv hv : Nat) (rest : List Char) (h : hv < 10 ^ 2) :
    parseHour yv mov dv (padNum 2 hv ++ ':' :: rest) = parseMinute yv mov dv hv rest := by
  unfold parseHour
  rw [readNumSep_pad 2 hv ':' rest h]

theorem parseMinute_pad (yv mov dv hv miv : Nat) (rest : List Char) (h : miv < 10 ^ 2) :
    parseMinute yv mov dv hv (padNum 2 miv ++ ':' :: rest) =
      parseSecond yv mov dv hv miv rest := by
  unfold parseMinute
  rw [readNumSep_pad 2 miv ':' rest h]

theorem parseSecond_pad (yv mov dv hv miv sv : Nat) (rest : List Char) (h : sv < 10 ^ 2) :
    parseSecond yv mov dv hv miv (padNum 2 sv ++ '.' :: rest) =
      parseMillis yv mov dv hv miv sv rest := by
  unfold parseSecond
  rw [readNumSep_pad 2 sv '.' rest h]

theorem parseMillis_pad (yv mov dv hv miv sv fv : Nat) (rest : List Char) (h : fv < 10 ^ 3) :
    parseMillis yv mov dv hv miv sv (padNum 3 fv ++ 'Z' :: rest) =
      parseDone yv mov dv hv miv sv fv rest := by
  unfold parseMillis
  rw [readNumSep_pad 3 fv 'Z' rest h]

theorem parseDone_nil (yv mov dv hv miv sv fv : Nat)
    (h : 1 ≤ mov ∧ mov ≤ 12 ∧ 1 ≤ dv ∧ dv ≤ 31 ∧ hv ≤ 23 ∧ miv ≤ 59 ∧ sv ≤ 59) :
    parseDone yv mov dv hv miv sv fv [] =
      some (daysFromCivil yv mov dv * msPerDay
        + hv * 3600000 + miv * 60000 + sv * 1000 + fv) := by
  unfold parseDone
  rw [if_pos]
  simp only [Bool.and_eq_true, decide_eq_true_eq, List.isEmpty_nil, and_true]
  omega

theorem parse_toISOChars (t : Nat) (ht : t ≤ 253402300799999) :
    parseISOChars (toISOChars t) = some t := by
  have hdays : t / msPerDay ≤ 2932896 := by
    unfold msPerDay
    omega
  have hms : t % msPerDay < 86400000 := by
    unfold msPerDay
    omega
  obtain ⟨hmo1, hmo2, hd1, hd2, hy⟩ := civilFromDays_bounds (t / msPerDay) hdays
  unfold toISOChars
  simp only []
  set days := t / msPerDay with hdaysdef
  set ms := t % msPerDay with hmsdef
  set y := (civilFromDays days).1 with hydef
  set mo := (civilFromDays days).2.1 with hmodef
  set dd := (civilFromDays days).2.2 with hdddef
  have hy4 : y < 10 ^ 4 := by
    calc y < 10000 := by omega
    _ = 10 ^ 4 := by norm_num
  have hmo9 : mo < 10 ^ 2 := by
    calc mo < 100 := by omega
    _ = 10 ^ 2 := by norm_num
  have hdd9 : dd < 10 ^ 2 := by
    calc dd < 100 := by omega
    _ = 10 ^ 2 := by norm_num
  have hh9 : ms / 3600000 < 10 ^ 2 := by
    calc ms / 3600000 < 100 := by omega
    _ = 10 ^ 2 := by norm_num
  have hmi9 : ms / 60000 % 60 < 10 ^ 2 := by
    calc ms / 60000 % 60 < 100 := by omega
    _ = 10 ^ 2 := by norm_num
  have hsec9 : ms / 1000 % 60 < 10 ^ 2 := by
    calc ms / 1000 % 60 < 100 := by omega
    _ = 10 ^ 2 := by norm_num
  have hfr9 : ms % 1000 < 10 ^ 3 := by
    calc ms % 1000 < 1000 := by omega
    _ = 10 ^ 3 := by norm_num
  rw [parseISOChars_pad y _ hy4]
  rw [parseMonth_pad y mo _ hmo9]
  rw [parseDay_pad y mo dd _ hdd9]
  rw [parseHour_pad y mo dd _ _ hh9]
  rw [parseMinute_pad y mo dd _ _ _ hmi9]
  rw [parseSecond_pad y mo dd _ _ _ _ hsec9]
  rw [parseMillis_pad y mo dd _ _ _ _ _ hfr9]
  rw [parseDone_nil y mo dd _ _ _ _ (by omega)]
  rw [hydef, hmodef, hdddef]
  rw [daysFromCivil_civilFromDays days]
  congr 1
  unfold msPerDay at hdaysdef hmsdef
  unfold msPerDay
  omega

end WorkflowStorage

theorem find?_spec {α : Type} (l : List α) (p : α → Bool) (x : α) (h : l.find? p = some x) :
    ∃ j, ∃ hj : j < l.length, l.get ⟨j, hj⟩ = x ∧ p x = true ∧
      ∀ k, ∀ hk : k < l.length, k < j → p (l.get ⟨k, hk⟩) = false := by
  induction l with
  | nil => simp [List.find?] at h
  | cons a t ih =>
    rw [List.find?] at h
    cases hpa : p a with
    | true =>
      rw [hpa] at h
      injection h with h
      subst h
      refine ⟨0, ?_, ?_, hpa, ?_⟩
      · exact Nat.succ_pos _
      · rfl
      · intro k hk hk0
        omega
    | false =>
      rw [hpa] at h
      obtain ⟨j, hj, hget, hp, hbefore⟩ := ih h
      have hj1 : j + 1 < (a :: t).length := by
        simp only [List.length_cons]
        omega
      refine ⟨j + 1, hj1, ?_, hp, ?_⟩
      · simpa using hget
      · intro k hk hkj
        cases k with
        | zero => simpa using hpa
        | succ k2 =>
          have hk2 : k2 < t.length := by
            simp only [List.length_cons] at hk
            omega
          have hres := hbefore k2 hk2 (by omega)
          simpa using hres

theorem length_filter_and_comm {α : Type} (l : List α) (p q : α → Bool) :
    (l.filter (fun a => p a && q a)).length = (l.filter (fun a => q a && p a)).length := by
  congr 1
  apply List.filter_congr
  intro a _
  simp [Bool.and_comm]

/-- C10: getProgress counts in its completed and total fields only the
steps not flagged headless, counts in requiredCompleted and requiredTotal
every step flagged required, headless ones included, and percentage is
the exact guarded ratio: zero when there is no non headless step, and
completed over total times one hundred otherwise. -/
theorem C10_getProgress (w : WorkflowDefinition) :
    (WorkflowUtils.getProgress w).completed
        = w.steps.countP (fun st => !st.headless && st.completed) ∧
    (WorkflowUtils.getProgress w).total = w.steps.countP (fun st => !st.headless) ∧
    (WorkflowUtils.getProgress w).requiredCompleted
        = w.steps.countP (fun st => st.required && st.completed) ∧
    (WorkflowUtils.getProgress w).requiredTotal = w.steps.countP (fun st => st.required) ∧
    (WorkflowUtils.getProgress w).percentage =
      (if w.steps.countP (fun st => !st.headless) = 0 then (0 : ℚ) else
        ((w.steps.countP (fun st => !st.headless && st.completed) : ℚ) /
         (w.steps.countP (fun st => !st.headless) : ℚ)) * 100) := by
  unfold WorkflowUtils.getProgress
  simp only [List.countP_eq_length_filter, List.filter_filter]
  refine ⟨length_filter_and_comm w.steps _ _, trivial, length_filter_and_comm w.steps _ _, trivial, ?_⟩
  by_cases h0 : (w.steps.filter (fun st => !st.headless)).length = 0
  · simp only [h0, if_pos rfl]
    simp [h0]
  · have hpos : (w.steps.filter (fun st => !st.headless)).length > 0 := by omega
    simp only [if_neg h0]
    rw [if_pos hpos]
    rw [length_filter_and_comm w.steps (fun st => st.completed) (fun st => !st.headless)]

/-- C7: for every stored workflow state whose history timestamps are in
the image of toISOString (that is, for every state produced by serialize,
with instants between the epoch and the year 9999), deserialization
followed by serialization is an exact round trip: the data mapping, the
history log and each completion timestamp are restored to the identical
stored form, the timestamp through the identical instant. -/
theorem C7_serialize_deserialize_roundtrip (x : WorkflowStorage.StorageState String)
    (h : ∀ e ∈ x.history, ∃ t, t ≤ 253402300799999
        ∧ e.completedAt = WorkflowStorage.toISOString t) :
    WorkflowStorage.serialize (WorkflowStorage.deserialize x) = x := by
  unfold WorkflowStorage.serialize WorkflowStorage.deserialize
  cases x with
  | mk aw cs pz hist data =>
    simp only []
    congr 1
    rw [List.map_map]
    conv_rhs => rw [← List.map_id hist]
    apply List.map_congr_left
    intro e he
    obtain ⟨t, ht, heq⟩ := h e he
    have hp : WorkflowStorage.parseISO (WorkflowStorage.toISOString t) = some t := by
      unfold WorkflowStorage.parseISO WorkflowStorage.toISOString
      exact WorkflowStorage.parse_toISOChars t ht
    cases e with
    | mk ew es ec ed =>
      simp only at heq
      simp only [Function.comp, id]
      rw [heq, hp]
      simp [Option.getD]

theorem C7_witness :
    WorkflowStorage.serialize (WorkflowStorage.deserialize
      { activeWorkflow := none, currentStepId := some "A", paused := false,
        history := [{ workflowId := "wone", stepId := "A",
                      completedAt := WorkflowStorage.toISOString 1700000000000,
                      data := some "ok" }],
        data := [("k", "v")] }) =
      { activeWorkflow := none, currentStepId := some "A", paused := false,
        history := [{ workflowId := "wone", stepId := "A",
                      completedAt := WorkflowStorage.toISOString 1700000000000,
                      data := some "ok" }],
        data := [("k", "v")] } :=
  C7_serialize_deserialize_roundtrip _ (by
    intro e he
    simp only [List.mem_singleton] at he
    subst he
    exact ⟨1700000000000, by norm_num, rfl⟩)

/-- C3 counterexample: with workflow wab active and current step A, the
call completeStep B with a data payload is not a no-op: step B is marked
completed and a history entry carrying the payload is appended, although
B is not the current step; moreover the payload is not merged into the
workflow data mapping, which stays empty. -/
theorem C3_counterexample :
    ((completeStep stAB "B" (some "v") 5).1.history
      = [{ workflowId := "wab", stepId := "B", completedAt := 5, data := some "v" }])
    ∧ ((completeStep stAB "B" (some "v") 5).1.data = [])
    ∧ ((completeStep stAB "B" (some "v") 5).1.activeWorkflow.map
          (fun w => w.steps.map (fun st => st.completed)) = some [false, true])
    ∧ (stAB.currentStepId = some "A") := by
  refine ⟨rfl, rfl, rfl, rfl⟩

/-- C4 counterexample: with workflow wone registered and already active
(its only step completed), a second start of wone does not fail with a
conflict: it returns ok and resets the active definition, so the
completion flags change from true back to false. -/
theorem C4_counterexample :
    ((startWorkflow (registerWorkflow [] wfSingle) stSingleDone "wone" none 7).toOption.map
        (fun r => (r.1.activeWorkflow.map (fun w => w.steps.map (fun st => st.completed)),
                   r.1.currentStepId))
      = some (some [false], some "A"))
    ∧ (stSingleDone.activeWorkflow.map
        (fun w => w.steps.map (fun st => st.completed)) = some [true]) := by
  refine ⟨rfl, rfl⟩

/-- C5 counterexample: with workflow wab active, current step A, and the
paused flag set, completeStep A immediately activates step B, emitting
its start and the navigation call during the paused call; and a following
resume dispatches only RESUME_WORKFLOW and emits WORKFLOW_RESUMED, with
no deferred activation at all. -/
theorem C5_counterexample :
    ((completeStep stABPaused "A" none 3).2.countP
        (fun it => match it with
          | TraceItem.act (WorkflowAction.setCurrentStep _) => true
          | _ => false) = 1)
    ∧ ((completeStep stABPaused "A" none 3).2.countP
        (fun it => match it with
          | TraceItem.eff (EngineEffect.navigate _ _) => true
          | _ => false) = 1)
    ∧ ((completeStep stABPaused "A" none 3).1.paused = true)
    ∧ ((resumeWorkflow (mkState (some wfAB) (some "B") true) 9).2.countP
        (fun it => match it with
          | TraceItem.act (WorkflowAction.setCurrentStep _) => true
          | TraceItem.eff (EngineEffect.navigate _ _) => true
          | TraceItem.eff (EngineEffect.hookStepOnActivate _) => true
          | _ => false) = 0) := by
  refine ⟨rfl, rfl, rfl, rfl⟩

/-- C6 counterexample: registerWorkflow stores a definition that violates
the validation rules (empty id and no steps) without any error, and the
separate validate utility indeed reports it invalid with both violations. -/
theorem C6_counterexample :
    (getWorkflow (registerWorkflow [] wfBad) "" = some wfBad)
    ∧ ((WorkflowUtils.validate wfBad).1 = false)
    ∧ ((WorkflowUtils.validate wfBad).2
        = ["Workflow must have an id", "Workflow must have at least one step"]) := by
  refine ⟨rfl, rfl, rfl⟩

/-- C8 counterexample: activating the interactive step N whose navigation
parameter holds the placeholder for the key name, while the data mapping
maps name to alice, calls the navigation collaborator with the
placeholder passed through verbatim: no occurrence of the substituted
value appears in the call. -/
theorem C8_counterexample :
    ((skipToStep stNav "N" 2).2.countP
        (fun it => match it with
          | TraceItem.eff (EngineEffect.navigate "S" (some [("p", "\x7b\x7bname\x7d\x7d")])) =>
              true
          | _ => false) = 1)
    ∧ ((skipToStep stNav "N" 2).2.countP
        (fun it => match it with
          | TraceItem.eff (EngineEffect.navigate _ (some [("p", "alice")])) => true
          | _ => false) = 0)
    ∧ (stNav.data = [("name", "alice")]) := by
  refine ⟨rfl, rfl, rfl⟩

/-- C9 counterexample: skipping to the headless step H whose completion
condition holds does not leave every completed flag unchanged: H itself
is marked completed by the automatic completion that activation runs. -/
theorem C9_counterexample :
    ((skipToStep stHeadless "H" 4).1.activeWorkflow.map
        (fun w => w.steps.map (fun st => st.completed)) = some [false, true])
    ∧ ((wfHeadless.steps.map (fun st => st.completed)) = [false, false]) := by
  refine ⟨rfl, rfl⟩

/-- C2: when completeStep is applied with a workflow active and a step of
that workflow named, and marking that step leaves every step flagged
required completed, the workflow finishes exactly once within the call:
WORKFLOW_COMPLETED is emitted exactly once, the workflow onComplete hook
is invoked when the definition carries one, and the resulting state has
no active workflow, regardless of the completion state of steps not
flagged required. -/
theorem C2_required_completion (s : WorkflowState) (w : WorkflowDefinition) (sid : String)
    (d : Option String) (now : Nat) (step : WorkflowStep)
    (hw : s.activeWorkflow = some w)
    (hfound : w.steps.find? (fun st => st.id == sid) = some step)
    (hreq : ∀ st ∈ w.steps, st.required = true → (st.completed = true ∨ st.id = sid)) :
    countEmits (completeStep s sid d now).2 WorkflowEventType.workflowCompleted = 1
    ∧ (w.hasOnComplete = true →
        TraceItem.eff (EngineEffect.hookWorkflowOnComplete w.id) ∈ (completeStep s sid d now).2)
    ∧ (completeStep s sid d now).1.activeWorkflow = none := by
  have hcond : (((w.steps.map (fun st =>
      if st.id == sid then { st with completed := true } else st)).filter
        (fun st => st.required)).all (fun st => st.completed || st.id == sid)) = true := by
    rw [List.all_eq_true]
    intro st hst
    rw [List.mem_filter] at hst
    obtain ⟨hmem, hrq⟩ := hst
    rw [List.mem_map] at hmem
    obtain ⟨st0, hst0, heq⟩ := hmem
    by_cases hid : (st0.id == sid) = true
    · rw [hid, if_pos rfl] at heq
      subst heq
      simp
    · rw [Bool.not_eq_true] at hid
      rw [hid] at heq
      simp only [Bool.false_eq_true, if_false] at heq
      subst heq
      rcases hreq st0 hst0 hrq with hc | hc
      · simp [hc]
      · simp [hc]
  unfold completeStep
  rw [show engineFuel s = 2 * w.steps.length + 3 + 1 by simp [engineFuel, hw]]
  unfold completeStepGo
  rw [hw]
  simp only []
  rw [hfound]
  simp only [workflowReducer, hw]
  rw [if_pos hcond]
  refine ⟨?_, ?_, rfl⟩
  · simp only [countEmits, List.countP_append, List.countP_cons, List.countP_nil]
    cases step.hasOnComplete <;> cases w.hasOnComplete <;> rfl
  · intro hwoc
    simp only [hwoc, if_pos]
    simp [List.mem_append]

theorem C2_witness :
    countEmits (completeStep (mkState (some wfSingle) (some "A") false) "A" none 3).2
        WorkflowEventType.workflowCompleted = 1
    ∧ (wfSingle.hasOnComplete = true →
        TraceItem.eff (EngineEffect.hookWorkflowOnComplete wfSingle.id)
          ∈ (completeStep (mkState (some wfSingle) (some "A") false) "A" none 3).2)
    ∧ (completeStep (mkState (some wfSingle) (some "A") false) "A" none 3).1.activeWorkflow
        = none :=
  C2_required_completion _ wfSingle "A" none 3 (mkStep "A" (some "SA") false true false []) rfl rfl
    (by
      intro st hst hr
      simp only [wfSingle, mkWorkflow, List.mem_singleton] at hst
      subst hst
      right
      rfl)

theorem engine_data_preserved (fuel : Nat) :
    (∀ s step now, (executeStepGo fuel s step now).1.data = s.data)
    ∧ (∀ s sid d now, (completeStepGo fuel s sid d now).1.data = s.data) := by
  induction fuel with
  | zero => exact ⟨fun s step now => rfl, fun s sid d now => rfl⟩
  | succ n ih =>
    obtain ⟨ihE, ihC⟩ := ih
    constructor
    · intro s step now
      unfold executeStepGo
      cases hw : s.activeWorkflow with
      | none => rfl
      | some w =>
        simp only []
        cases hh : step.headless with
        | false => cases hsc : step.completionCondition <;> rfl
        | true =>
          cases hsc : step.completionCondition with
          | none => rfl
          | some cond =>
            simp only []
            by_cases hcd : cond (workflowReducer s (WorkflowAction.setCurrentStep step.id)).data
                = true
            · rw [if_pos hcd]
              simp only []
              rw [ihC]
              rfl
            · rw [if_neg hcd]
              rfl
    · intro s sid d now
      unfold completeStepGo
      cases hw : s.activeWorkflow with
      | none => rfl
      | some w =>
        simp only []
        cases hf : w.steps.find? (fun st => st.id == sid) with
        | none => rfl
        | some step =>
          simp only [workflowReducer, hw]
          by_cases hcond : (((w.steps.map (fun st =>
              if st.id == sid then { st with completed := true } else st)).filter
                (fun st => st.required)).all (fun st => st.completed || st.id == sid)) = true
          · rw [if_pos hcond]
          · rw [if_neg hcond]
            cases hnext : findNextStep { w with steps := w.steps.map (fun st =>
                if st.id == sid then { st with completed := true } else st) } sid with
            | none => rfl
            | some nextStep =>
              simp only []
              rw [ihE]

/-- C3 (amended): completeStep(stepId, data) is a silent no-op leaving the
whole state unchanged when no workflow is active or when stepId names no
step of the active workflow; otherwise — whether or not stepId is the
current step — it dispatches COMPLETE_STEP and ADD_HISTORY_ENTRY, emits
STEP_COMPLETED, and invokes the step onComplete hook when present, in
that order, before anything else; the data payload is recorded in the
history entry only and is never merged into the workflow data mapping. -/
theorem C3_completeStep_behaviour (s : WorkflowState) (sid : String) (d : Option String)
    (now : Nat) :
    (s.activeWorkflow = none → completeStep s sid d now = (s, []))
    ∧ (∀ w, s.activeWorkflow = some w →
        w.steps.find? (fun st => st.id == sid) = none → completeStep s sid d now = (s, []))
    ∧ (∀ w step, s.activeWorkflow = some w →
        w.steps.find? (fun st => st.id == sid) = some step →
        ∃ rest, (completeStep s sid d now).2
          = [TraceItem.act (WorkflowAction.completeStep sid d),
             TraceItem.act (WorkflowAction.addHistoryEntry w.id sid d now),
             TraceItem.eff (EngineEffect.emit
               (mkEvent WorkflowEventType.stepCompleted w.id (some sid) now d))]
            ++ (if step.hasOnComplete then [TraceItem.eff (EngineEffect.hookStepOnComplete sid)]
                else []) ++ rest)
    ∧ (completeStep s sid d now).1.data = s.data := by
  refine ⟨?_, ?_, ?_, (engine_data_preserved (engineFuel s)).2 s sid d now⟩
  · intro h
    unfold completeStep
    rw [show engineFuel s = 0 + 1 by simp [engineFuel, h]]
    unfold completeStepGo
    rw [h]
  · intro w hw hnone
    unfold completeStep
    rw [show engineFuel s = 2 * w.steps.length + 3 + 1 by simp [engineFuel, hw]]
    unfold completeStepGo
    rw [hw]
    simp only []
    rw [hnone]
  · intro w step hw hfound
    unfold completeStep
    rw [show engineFuel s = 2 * w.steps.length + 3 + 1 by simp [engineFuel, hw]]
    unfold completeStepGo
    rw [hw]
    simp only []
    rw [hfound]
    simp only [workflowReducer, hw]
    by_cases hcond : (((w.steps.map (fun st =>
        if st.id == sid then { st with completed := true } else st)).filter
          (fun st => st.required)).all (fun st => st.completed || st.id == sid)) = true
    · rw [if_pos hcond]
      refine ⟨([TraceItem.eff (EngineEffect.emit
          (mkEvent WorkflowEventType.workflowCompleted w.id none now none))]
        ++ (if w.hasOnComplete = true then
              [TraceItem.eff (EngineEffect.hookWorkflowOnComplete w.id)] else []))
        ++ [TraceItem.act WorkflowAction.stopWorkflow], ?_⟩
      simp only [List.append_assoc, mkEvent]
    · rw [if_neg hcond]
      cases hnext : findNextStep { w with steps := w.steps.map (fun st =>
          if st.id == sid then { st with completed := true } else st) } sid with
      | none =>
        refine ⟨[], ?_⟩
        simp only [List.append_assoc, List.append_nil, mkEvent]
      | some nextStep =>
        simp only []
        refine ⟨(executeStepGo (2 * w.steps.length + 3)
            (workflowReducer (workflowReducer s (WorkflowAction.completeStep sid d))
              (WorkflowAction.addHistoryEntry w.id sid d now)) nextStep now).2, ?_⟩
        simp only [workflowReducer, hw, List.append_assoc, mkEvent]

theorem C3_witness :
    ∃ rest, (completeStep stAB "B" (some "v") 5).2
      = [TraceItem.act (WorkflowAction.completeStep "B" (some "v")),
         TraceItem.act (WorkflowAction.addHistoryEntry "wab" "B" (some "v") 5),
         TraceItem.eff (EngineEffect.emit
           (mkEvent WorkflowEventType.stepCompleted "wab" (some "B") 5 (some "v")))]
        ++ (if (mkStep "B" (some "SB") false true false []).hasOnComplete then
              [TraceItem.eff (EngineEffect.hookStepOnComplete "B")] else []) ++ rest :=
  (C3_completeStep_behaviour stAB "B" (some "v") 5).2.2.1 wfAB
    (mkStep "B" (some "SB") false true false []) rfl rfl

/-- C4 (amended): start on an unregistered id fails with the not found
error and nothing else happens; start on a registered id succeeds even
while another workflow is active — no conflict error exists — and its
first dispatched action is START_WORKFLOW with the looked up definition,
which replaces the previously active workflow in the state. -/
theorem C4_startWorkflow_behaviour (r : Registry) (s : WorkflowState) (wid : String)
    (cd : Option (List (String × String))) (now : Nat) :
    (getWorkflow r wid = none →
      startWorkflow r s wid cd now
        = Except.error ("Workflow with id " ++ wid ++ " not found"))
    ∧ (∀ w, getWorkflow r wid = some w →
        ∃ res, startWorkflow r s wid cd now = Except.ok res
          ∧ res.2.head? = some (TraceItem.act (WorkflowAction.startWorkflow w cd))
          ∧ (workflowReducer s (WorkflowAction.startWorkflow w cd)).activeWorkflow = some w) := by
  constructor
  · intro h
    unfold startWorkflow
    rw [h]
  · intro w hw
    unfold startWorkflow
    rw [hw]
    simp only []
    cases hfind : w.steps.find? (fun st => !st.completed) with
    | none =>
      refine ⟨_, rfl, ?_, rfl⟩
      rfl
    | some first =>
      refine ⟨_, rfl, ?_, rfl⟩
      rfl

theorem C4_witness :
    ((getWorkflow (registerWorkflow [] wfSingle) "nope" = none →
      startWorkflow (registerWorkflow [] wfSingle) stSingleDone "nope" none 7
        = Except.error ("Workflow with id " ++ "nope" ++ " not found"))
    ∧ (∃ res, startWorkflow (registerWorkflow [] wfSingle) stSingleDone "wone" none 7
          = Except.ok res
        ∧ res.2.head? = some (TraceItem.act (WorkflowAction.startWorkflow wfSingle none))
        ∧ (workflowReducer stSingleDone
            (WorkflowAction.startWorkflow wfSingle none)).activeWorkflow = some wfSingle)) :=
  ⟨(C4_startWorkflow_behaviour (registerWorkflow [] wfSingle) stSingleDone "nope" none 7).1,
   (C4_startWorkflow_behaviour (registerWorkflow [] wfSingle) stSingleDone "wone" none 7).2
     wfSingle rfl⟩

/-- C5 (amended): the paused flag has no effect on completeStep — when the
call does not finish the workflow and findNextStep yields a step, that
step is activated within the same call, its SET_CURRENT_STEP dispatch and
STEP_STARTED emission appearing in the trace, for any state and so in
particular while paused; resume only dispatches RESUME_WORKFLOW and emits
WORKFLOW_RESUMED, performing no deferred activation, and does nothing
without an active workflow. -/
theorem C5_paused_behaviour (s : WorkflowState) (w w2 : WorkflowDefinition) (sid : String)
    (step next : WorkflowStep) (d : Option String) (now : Nat)
    (hw : s.activeWorkflow = some w)
    (hfound : w.steps.find? (fun st => st.id == sid) = some step)
    (hw2 : (workflowReducer s (WorkflowAction.completeStep sid d)).activeWorkflow = some w2)
    (hnotall : ((w2.steps.filter (fun st => st.required)).all
        (fun st => st.completed || st.id == sid)) = false)
    (hnext : findNextStep w2 sid = some next) :
    (TraceItem.act (WorkflowAction.setCurrentStep next.id) ∈ (completeStep s sid d now).2
      ∧ TraceItem.eff (EngineEffect.emit
          (mkEvent WorkflowEventType.stepStarted w2.id (some next.id) now none))
            ∈ (completeStep s sid d now).2)
    ∧ (∀ s2 w3, s2.activeWorkflow = some w3 →
        resumeWorkflow s2 now = (workflowReducer s2 WorkflowAction.resumeWorkflow,
          [TraceItem.act WorkflowAction.resumeWorkflow,
           TraceItem.eff (EngineEffect.emit
             (mkEvent WorkflowEventType.workflowResumed w3.id none now none))]))
    ∧ (∀ s2, s2.activeWorkflow = none → resumeWorkflow s2 now = (s2, [])) := by
  refine ⟨?_, ?_, ?_⟩
  · have hs2 : (workflowReducer (workflowReducer s (WorkflowAction.completeStep sid d))
        (WorkflowAction.addHistoryEntry w.id sid d now)).activeWorkflow = some w2 := hw2
    unfold completeStep
    rw [show engineFuel s = 2 * w.steps.length + 3 + 1 by simp [engineFuel, hw]]
    unfold completeStepGo
    rw [hw]
    simp only []
    rw [hfound]
    simp only []
    rw [hs2]
    simp only []
    rw [if_neg (by simp [hnotall])]
    rw [hnext]
    simp only []
    rw [show 2 * w.steps.length + 3 = 2 * w.steps.length + 2 + 1 from rfl]
    unfold executeStepGo
    rw [hs2]
    simp only [mkEvent]
    constructor <;>
      (split <;> (try split) <;> (try split)) <;> simp [List.mem_append, List.mem_cons]
  · intro s2 w3 h
    unfold resumeWorkflow
    rw [h]
    simp [mkEvent]
  · intro s2 h
    unfold resumeWorkflow
    rw [h]

theorem C5_witness :
    TraceItem.act (WorkflowAction.setCurrentStep "B") ∈ (completeStep stABPaused "A" none 3).2
    ∧ TraceItem.eff (EngineEffect.emit
        (mkEvent WorkflowEventType.stepStarted "wab" (some "B") 3 none))
          ∈ (completeStep stABPaused "A" none 3).2 :=
  (C5_paused_behaviour stABPaused wfAB
    (mkWorkflow "wab"
      [mkStep "A" (some "SA") true true false [],
       mkStep "B" (some "SB") false true false []])
    "A" (mkStep "A" (some "SA") false true false [])
    (mkStep "B" (some "SB") false true false []) none 3 rfl rfl rfl rfl rfl).1

/-- C8 (amended): when an interactive step — not headless, carrying a
screen reference — is activated, the engine calls the navigation
collaborator with the step screen and its navigationParams exactly as
declared: no placeholder resolution is performed, whatever the data
mapping holds, so a template key present in the data mapping is passed
through verbatim rather than substituted. -/
theorem C8_navigation_verbatim (s : WorkflowState) (w : WorkflowDefinition) (sid : String)
    (step : WorkflowStep) (sc : String) (now : Nat)
    (hw : s.activeWorkflow = some w)
    (hfound : w.steps.find? (fun st => st.id == sid) = some step)
    (hint : step.headless = false)
    (hsc : step.screen = some sc) :
    TraceItem.eff (EngineEffect.navigate sc step.navigationParams)
      ∈ (skipToStep s sid now).2 := by
  unfold skipToStep
  rw [hw]
  simp only []
  rw [hfound]
  rw [show engineFuel s = 2 * w.steps.length + 3 + 1 by simp [engineFuel, hw]]
  unfold executeStepGo
  rw [hw]
  simp only []
  cases hcc : step.completionCondition <;>
    simp [hint, hsc, List.mem_append, List.mem_cons]

theorem C8_witness :
    TraceItem.eff (EngineEffect.navigate "S" (some [("p", "\x7b\x7bname\x7d\x7d")]))
      ∈ (skipToStep stNav "N" 2).2 :=
  C8_navigation_verbatim stNav wfNav "N"
    ({ mkStep "N" (some "S") false true false [] with
        navigationParams := some [("p", "\x7b\x7bname\x7d\x7d")] })
    "S" 2 rfl rfl rfl rfl

/-- C1 counterexample: starting wdep activates step X although the
declared dependency Y of X is not completed (start ignores dependencies);
and after completing step B of wab, no step is activated although step A,
declared first, is not completed and has no dependencies — the scan does
not restart from the beginning of the sequence. -/
theorem C1_counterexample :
    ((startWorkflow (registerWorkflow [] wfDep) (mkState none none false)
        "wdep" none 1).toOption.map
        (fun r => r.2.countP (fun it => match it with
          | TraceItem.act (WorkflowAction.setCurrentStep "X") => true
          | _ => false)) = some 1)
    ∧ (wfDep.steps.map (fun st => (st.id, st.completed, st.dependencies))
        = [("X", false, ["Y"]), ("Y", false, [])])
    ∧ ((completeStep stAB "B" none 5).2.countP (fun it => match it with
          | TraceItem.act (WorkflowAction.setCurrentStep _) => true
          | _ => false) = 0)
    ∧ ((completeStep stAB "B" none 5).1.activeWorkflow.map
          (fun w => w.steps.map (fun st => (st.completed, st.dependencies)))
        = some [(false, []), (true, [])]) := by
  refine ⟨rfl, rfl, rfl, rfl⟩

/-- C1 (amended): the automatic activation performed at start selects the
first step in declaration order whose completed flag is not set, with no
dependency check of any kind; the activation performed after a
completeStep uses findNextStep, whose scan does not start from the
beginning: it starts right after the position of the just completed step
and selects the first later step that is not completed and has all its
dependencies completed. -/
theorem C1_activation_selection :
    (∀ (r : Registry) (s : WorkflowState) (wid : String)
        (cd : Option (List (String × String))) (now : Nat) (w : WorkflowDefinition)
        (first : WorkflowStep),
      getWorkflow r wid = some w →
      w.steps.find? (fun st => !st.completed) = some first →
      (∃ res, startWorkflow r s wid cd now = Except.ok res
        ∧ TraceItem.act (WorkflowAction.setCurrentStep first.id) ∈ res.2)
      ∧ (∃ j, ∃ hj : j < w.steps.length, w.steps.get ⟨j, hj⟩ = first
          ∧ first.completed = false
          ∧ ∀ k, ∀ hk : k < w.steps.length, k < j →
              (w.steps.get ⟨k, hk⟩).completed = true))
    ∧ (∀ (w : WorkflowDefinition) (sid : String) (next : WorkflowStep),
        findNextStep w sid = some next →
        ∃ j, ∃ hj : j < w.steps.length, w.steps.get ⟨j, hj⟩ = next
          ∧ scanStart w sid ≤ j
          ∧ eligibleStep w next = true
          ∧ ∀ k, ∀ hk : k < w.steps.length, scanStart w sid ≤ k → k < j →
              eligibleStep w (w.steps.get ⟨k, hk⟩) = false) := by
  constructor
  · intro r s wid cd now w first hw hfind
    constructor
    · unfold startWorkflow
      rw [hw]
      simp only []
      rw [hfind]
      refine ⟨_, rfl, ?_⟩
      rw [show 2 * w.steps.length + 4 = 2 * w.steps.length + 3 + 1 from rfl]
      unfold executeStepGo
      simp only [workflowReducer]
      (split <;> (try split) <;> (try split)) <;>
        simp [List.mem_append, List.mem_cons]
    · obtain ⟨j, hj, hget, hp, hbefore⟩ := find?_spec _ _ _ hfind
      refine ⟨j, hj, hget, by simpa using hp, ?_⟩
      intro k hk hkj
      have := hbefore k hk hkj
      simpa using this
  · intro w sid next hfind
    unfold findNextStep at hfind
    obtain ⟨j, hj, hget, hp, hbefore⟩ := find?_spec _ _ _ hfind
    rw [List.length_drop] at hj
    have hstartlen : scanStart w sid < w.steps.length := by omega
    refine ⟨scanStart w sid + j, by omega, ?_, by omega, hp, ?_⟩
    · rw [← hget]
      exact List.get_drop w.steps (by omega)
    · intro k hk hk1 hk2
      have hkd : k - scanStart w sid < (List.drop (scanStart w sid) w.steps).length := by
        rw [List.length_drop]
        omega
      have hres := hbefore (k - scanStart w sid) hkd (by omega)
      have hgd := List.get_drop w.steps
        (show scanStart w sid + (k - scanStart w sid) < w.steps.length by omega)
      rw [← hgd] at hres
      have hfin : (⟨scanStart w sid + (k - scanStart w sid), by omega⟩ : Fin w.steps.length)
          = ⟨k, hk⟩ := by
        apply Fin.ext
        simp only []
        omega
      rw [hfin] at hres
      exact hres

theorem C1_witness :
    (∃ res, startWorkflow (registerWorkflow [] wfDep) (mkState none none false) "wdep" none 1
        = Except.ok res
      ∧ TraceItem.act (WorkflowAction.setCurrentStep "X") ∈ res.2)
    ∧ (∃ j, ∃ hj : j < wfDep.steps.length,
        wfDep.steps.get ⟨j, hj⟩ = mkStep "X" (some "SX") false true false ["Y"]
        ∧ (mkStep "X" (some "SX") false true false ["Y"]).completed = false
        ∧ ∀ k, ∀ hk : k < wfDep.steps.length, k < j →
            (wfDep.steps.get ⟨k, hk⟩).completed = true) :=
  C1_activation_selection.1 (registerWorkflow [] wfDep) (mkState none none false) "wdep"
    none 1 wfDep (mkStep "X" (some "SX") false true false ["Y"]) rfl rfl

/-- Helper: a conditional error list is empty exactly when the condition
fails. -/
theorem ite_nil_iff {c : Prop} [Decidable c] (l : List String) (hne : l ≠ []) :
    ((if c then l else []) = []) ↔ ¬ c := by
  split <;> simp_all

/-- Helper: boolean reading of the headless validity condition. -/
theorem headless_cond_iff (h oa : Bool) (cc : Option (List (String × String) → Bool)) :
    (¬ ((h && !oa && cc.isNone) = true)) ↔ (h = true → oa = true ∨ cc.isSome = true) := by
  cases h <;> cases oa <;> cases cc <;> simp

/-- Helper: boolean reading of the screen validity condition. -/
theorem screen_cond_iff (h : Bool) (sc : Option String) :
    (¬ ((!h && sc.isNone) = true)) ↔ (h = false → sc.isSome = true) := by
  cases h <;> cases sc <;> simp

/-- Helper: the dependency check of the validation fold yields no error
exactly when the dependency is among the ids seen. -/
theorem dep_check_iff (l : List String) (dep msg : String) :
    ((if l.contains dep then (none : Option String) else some msg) = none) ↔ dep ∈ l := by
  split <;> simp_all

namespace WorkflowUtils

/-- One step of the validation fold adds no violation exactly when the
step id is fresh, its dependencies are among the seen ids or its own id,
and the headless and screen conditions hold. -/
theorem stepFoldFn_snd_nil_iff (acc : List String × List String) (st : WorkflowStep) :
    ((stepFoldFn acc st).2 = []) ↔
    (acc.2 = []
      ∧ st.id ∉ acc.1
      ∧ (∀ dep ∈ st.dependencies, dep ∈ acc.1 ++ [st.id])
      ∧ (st.headless = true → (st.hasOnActivate = true ∨ st.completionCondition.isSome = true))
      ∧ (st.headless = false → st.screen.isSome = true)) := by
  show (acc.2 ++ _ ++ _ ++ _ ++ _ = []) ↔ _
  simp only [List.append_eq_nil]
  rw [ite_nil_iff _ (by simp), ite_nil_iff _ (by simp), ite_nil_iff _ (by simp)]
  rw [headless_cond_iff, screen_cond_iff, List.filterMap_eq_nil]
  constructor
  · rintro ⟨⟨⟨⟨he, hdup⟩, hdep⟩, hhl⟩, hscr⟩
    refine ⟨he, by simpa using hdup, ?_, hhl, hscr⟩
    intro dep hdm
    have := hdep dep hdm
    rwa [dep_check_iff] at this
  · rintro ⟨he, hdup, hdep, hhl, hscr⟩
    refine ⟨⟨⟨⟨he, by simpa using hdup⟩, ?_⟩, hhl⟩, hscr⟩
    intro dep hdm
    rw [dep_check_iff]
    exact hdep dep hdm

/-- The validation fold over a step list ends with no violation exactly
when it starts with none and every step of the list, decomposed by its
position, satisfies the per step conditions with respect to the ids
declared before it, seeded by the initial seen set. -/
theorem validate_fold_char (steps : List WorkflowStep) :
    ∀ (seen errs : List String),
    ((steps.foldl stepFoldFn (seen, errs)).2 = [])
    ↔ (errs = [] ∧ ∀ l1 st l2, steps = l1 ++ st :: l2 →
        (st.id ∉ seen ++ l1.map (fun s => s.id))
        ∧ (∀ dep ∈ st.dependencies, dep ∈ (seen ++ l1.map (fun s => s.id)) ++ [st.id])
        ∧ (st.headless = true →
            (st.hasOnActivate = true ∨ st.completionCondition.isSome = true))
        ∧ (st.headless = false → st.screen.isSome = true)) := by
  induction steps with
  | nil =>
    intro seen errs
    simp only [List.foldl_nil]
    constructor
    · intro h
      refine ⟨h, ?_⟩
      intro l1 st l2 hdec
      exact absurd hdec (by simp)
    · intro h
      exact h.1
  | cons st rest ih =>
    intro seen errs
    rw [List.foldl_cons]
    have hfold : List.foldl stepFoldFn (stepFoldFn (seen, errs) st) rest
        = List.foldl stepFoldFn ((stepFoldFn (seen, errs) st).1,
            (stepFoldFn (seen, errs) st).2) rest := by
      rfl
    rw [hfold, ih]
    have h1 : (stepFoldFn (seen, errs) st).1 = seen ++ [st.id] := rfl
    rw [h1, stepFoldFn_snd_nil_iff]
    constructor
    · rintro ⟨⟨he, hdup, hdep, hhl, hscr⟩, hrest⟩
      refine ⟨he, ?_⟩
      intro l1 stx l2 hdec
      cases l1 with
      | nil =>
        simp only [List.nil_append, List.cons.injEq] at hdec
        obtain ⟨hst, _⟩ := hdec
        subst hst
        refine ⟨by simpa using hdup, ?_, hhl, hscr⟩
        intro dep hdm
        simpa using hdep dep hdm
      | cons y l1t =>
        simp only [List.cons_append, List.cons.injEq] at hdec
        obtain ⟨hy, hrest2⟩ := hdec
        subst hy
        obtain ⟨k1, k2, k3, k4⟩ := hrest l1t stx l2 hrest2
        refine ⟨?_, ?_, k3, k4⟩
        · intro hmem
          apply k1
          simp only [List.map_cons, List.append_assoc, List.singleton_append] at hmem ⊢
          simpa using hmem
        · intro dep hdm
          have := k2 dep hdm
          simp only [List.map_cons, List.append_assoc, List.singleton_append] at this ⊢
          simpa using this
    · rintro ⟨he, hall⟩
      obtain ⟨hdup, hdep, hhl, hscr⟩ := hall [] st rest (by simp)
      refine ⟨⟨he, by simpa using hdup, ?_, hhl, hscr⟩, ?_⟩
      · intro dep hdm
        simpa using hdep dep hdm
      · intro l1 stx l2 hdec
        obtain ⟨k1, k2, k3, k4⟩ := hall (st :: l1) stx l2 (by simp [hdec])
        refine ⟨?_, ?_, k3, k4⟩
        · intro hmem
          apply k1
          simp only [List.map_cons, List.append_assoc, List.singleton_append] at hmem ⊢
          simpa using hmem
        · intro dep hdm
          have := k2 dep hdm
          simp only [List.map_cons, List.append_assoc, List.singleton_append] at this ⊢
          simpa using this

/-- The valid flag of validate is true exactly for definitions meeting
the declarative validity conditions. -/
theorem validate_true_iff (w : WorkflowDefinition) :
    (validate w).1 = true ↔ validSpec w := by
  unfold validate validSpec
  simp only []
  rw [List.isEmpty_iff]
  simp only [List.append_eq_nil]
  rw [ite_nil_iff _ (by simp), ite_nil_iff _ (by simp), ite_nil_iff _ (by simp)]
  rw [validate_fold_char]
  simp only [beq_iff_eq, List.length_eq_zero, List.nil_append, true_and, ne_eq]
  tauto

end WorkflowUtils

/-- Helper: replacing the entry of an id present in the registry keeps it
findable with the fresh definition. -/
theorem find_map_replace (w : WorkflowDefinition) :
    ∀ r : Registry, List.any r (fun p => p.1 == w.id) = true →
    List.find? (fun p => p.1 == w.id)
      (List.map (fun p => if p.1 == w.id then (w.id, w) else p) r) = some (w.id, w) := by
  intro r
  induction r with
  | nil => simp
  | cons p rest ih =>
    intro h
    by_cases hp : (p.1 == w.id) = true
    · simp [List.find?, hp]
    · simp only [List.any_cons, Bool.or_eq_true] at h
      rcases h with h | h
      · exact absurd h hp
      · have hp2 : (p.1 == w.id) = false := by simpa using hp
        simp only [List.map_cons, hp2, Bool.false_eq_true, if_false, List.find?]
        exact ih h

/-- Helper: appending the entry of a fresh id to the registry makes it
findable. -/
theorem find_append_new (w : WorkflowDefinition) :
    ∀ r : Registry, List.any r (fun p => p.1 == w.id) = false →
    List.find? (fun p => p.1 == w.id) (r ++ [(w.id, w)]) = some (w.id, w) := by
  intro r
  induction r with
  | nil => simp [List.find?]
  | cons p rest ih =>
    intro h
    simp only [List.any_cons, Bool.or_eq_false_iff] at h
    simp only [List.cons_append, List.find?, h.1]
    exact ih h.2

/-- Registration stores the definition unconditionally: looking its id up
afterwards yields it. -/
theorem getWorkflow_registerWorkflow (r : Registry) (w : WorkflowDefinition) :
    getWorkflow (registerWorkflow r w) w.id = some w := by
  unfold registerWorkflow getWorkflow
  by_cases hany : List.any r (fun p => p.1 == w.id) = true
  · rw [if_pos hany, find_map_replace w r hany]
  · rw [if_neg hany, find_append_new w r (Bool.eq_false_iff.mpr hany)]

/-- C6 (amended): registerWorkflow performs no validation and stores every
definition unconditionally — after registering a definition, looking up
its id yields exactly that definition, however invalid it is; the separate
WorkflowUtils.validate utility is the place where the rules live, and its
valid flag is true exactly when the definition meets all of them (nonempty
id and name, at least one step, no duplicate step id, dependencies naming
only ids declared at or before the step, headless steps carrying onActivate
or a completionCondition, and non headless steps carrying a screen);
validate accumulates one message per violation rather than stopping at the
first, as the C6 counterexample on a doubly invalid definition shows. -/
theorem C6_registration_validation :
    (∀ (r : Registry) (w : WorkflowDefinition),
        getWorkflow (registerWorkflow r w) w.id = some w)
    ∧ (∀ w : WorkflowDefinition,
        (WorkflowUtils.validate w).1 = true ↔ WorkflowUtils.validSpec w) :=
  ⟨getWorkflow_registerWorkflow, WorkflowUtils.validate_true_iff⟩

/-- Helper: a successful find? splits the list into a failing prefix, the
found element, and a remainder. -/
theorem find?_decomp {α : Type} (l : List α) (p : α → Bool) (x : α) (h : l.find? p = some x) :
    ∃ l1 l2, l = l1 ++ x :: l2 ∧ p x = true ∧ ∀ y ∈ l1, p y = false := by
  induction l with
  | nil => simp [List.find?] at h
  | cons a t ih =>
    rw [List.find?] at h
    cases hpa : p a with
    | true =>
      rw [hpa] at h
      injection h with h
      subst h
      exact ⟨[], t, rfl, hpa, by simp⟩
    | false =>
      rw [hpa] at h
      obtain ⟨l1, l2, hdec, hpx, hpre⟩ := ih h
      refine ⟨a :: l1, l2, by rw [hdec]; rfl, hpx, ?_⟩
      intro y hy
      rcases List.mem_cons.mp hy with h | h
      · subst h; exact hpa
      · exact hpre y h

/-- Helper: findIdx? from a start index on a list whose prefix fails the
predicate and whose next element satisfies it yields the start index plus
the prefix length. -/
theorem findIdx?_prefix_go {α : Type} (p : α → Bool) :
    ∀ (l1 : List α) (x : α) (l2 : List α) (i : Nat),
    p x = true → (∀ y ∈ l1, p y = false) →
    List.findIdx? p (l1 ++ x :: l2) i = some (i + l1.length) := by
  intro l1
  induction l1 with
  | nil =>
    intro x l2 i hp _
    simp [List.findIdx?_cons, hp]
  | cons a t ih =>
    intro x l2 i hp hpre
    have ha : p a = false := hpre a (by simp)
    rw [List.cons_append, List.findIdx?_cons, ha]
    simp only [Bool.false_eq_true, if_false]
    rw [ih x l2 (i + 1) hp (fun y hy => hpre y (by simp [hy]))]
    simp only [List.length_cons]
    congr 1
    omega

/-- Helper: findIdx? on a list whose prefix fails the predicate and whose
next element satisfies it yields the prefix length. -/
theorem findIdx?_prefix {α : Type} (p : α → Bool) (l1 : List α) (x : α) (l2 : List α)
    (hp : p x = true) (hpre : ∀ y ∈ l1, p y = false) :
    List.findIdx? p (l1 ++ x :: l2) = some l1.length := by
  have := findIdx?_prefix_go p l1 x l2 0 hp hpre
  simpa using this

/-- Helper: the decomposition of a list at the first element satisfying a
predicate is unique. -/
theorem decomp_unique {α : Type} (p : α → Bool) :
    ∀ (l1 : List α) (x : α) (l2 l1' : List α) (x' : α) (l2' : List α),
    l1 ++ x :: l2 = l1' ++ x' :: l2' → p x = true → p x' = true →
    (∀ y ∈ l1, p y = false) → (∀ y ∈ l1', p y = false) →
    l1 = l1' ∧ x = x' ∧ l2 = l2' := by
  intro l1
  induction l1 with
  | nil =>
    intro x l2 l1' x' l2' heq hp hp' h1 h1'
    cases l1' with
    | nil =>
      simp only [List.nil_append, List.cons.injEq] at heq
      exact ⟨rfl, heq.1, heq.2⟩
    | cons b t' =>
      simp only [List.nil_append, List.cons_append, List.cons.injEq] at heq
      obtain ⟨hxb, _⟩ := heq
      subst hxb
      have hb := h1' x (by simp)
      rw [hp] at hb
      cases hb
  | cons a t ih =>
    intro x l2 l1' x' l2' heq hp hp' h1 h1'
    cases l1' with
    | nil =>
      simp only [List.cons_append, List.nil_append, List.cons.injEq] at heq
      obtain ⟨hax, _⟩ := heq
      have haf := h1 a (by simp)
      rw [hax, hp'] at haf
      cases haf
    | cons b t' =>
      simp only [List.cons_append, List.cons.injEq] at heq
      obtain ⟨hab, heq2⟩ := heq
      obtain ⟨ht, hx, hl2⟩ := ih x l2 t' x' l2' heq2 hp hp'
        (fun y hy => h1 y (by simp [hy])) (fun y hy => h1' y (by simp [hy]))
      exact ⟨by rw [hab, ht], hx, hl2⟩

/-- Helper: the COMPLETE_STEP marking of the reducer keeps every step id. -/
theorem mark_id (sid : String) (x : WorkflowStep) :
    (if x.id == sid then { x with completed := true } else x).id = x.id := by
  split <;> rfl

/-- Helper: the COMPLETE_STEP marking of the reducer keeps the id list. -/
theorem mark_ids (sid : String) (l : List WorkflowStep) :
    ((l.map (fun x => if x.id == sid then { x with completed := true } else x)).map
      (fun x => x.id)) = l.map (fun x => x.id) := by
  rw [List.map_map]
  apply List.map_congr_left
  intro x _
  exact mark_id sid x

/-- Helper: the COMPLETE_STEP marking of the reducer leaves a list of
steps with other ids untouched. -/
theorem mark_keeps_others (sid : String) (l1 : List WorkflowStep)
    (hpre : ∀ y ∈ l1, (y.id == sid) = false) :
    l1.map (fun x => if x.id == sid then { x with completed := true } else x) = l1 := by
  have h : ∀ y ∈ l1,
      (fun x => if x.id == sid then { x with completed := true } else x) y = id y := by
    intro y hy
    simp [hpre y hy]
  rw [List.map_congr_left h, List.map_id]

/-- Helper: taking the length of a mapped prefix from its append
recovers the mapped prefix. -/
theorem take_length_append {α β : Type} (f : α → β) (l1 : List α) (rest : List β) :
    (l1.map f ++ rest).take l1.length = l1.map f := by
  have h : l1.length = (l1.map f).length := (List.length_map _ _).symm
  rw [h]
  exact List.take_left _ _

/-- Cascade frame property: when a call of executeStep targets a step
sitting at some position of the active workflow (and step ids are free of
duplicates), every recursively triggered completion targets that position
or a later one, so the id list is preserved and the completed flags of
all steps declared before that position are unchanged; likewise for a
call of completeStep naming the id of the step at that position. -/
theorem engine_prefix_preserved (fuel : Nat) :
    (∀ s v step now l1 st l2, s.activeWorkflow = some v →
       ((v.steps.map (fun x => x.id)).Nodup) →
       v.steps = l1 ++ st :: l2 → st.id = step.id →
       ∀ w2, (executeStepGo fuel s step now).1.activeWorkflow = some w2 →
         w2.steps.map (fun x => x.id) = v.steps.map (fun x => x.id)
         ∧ (w2.steps.map (fun x => x.completed)).take l1.length
             = (v.steps.map (fun x => x.completed)).take l1.length)
    ∧ (∀ s v sid d now l1 st l2, s.activeWorkflow = some v →
       ((v.steps.map (fun x => x.id)).Nodup) →
       v.steps = l1 ++ st :: l2 → st.id = sid →
       ∀ w2, (completeStepGo fuel s sid d now).1.activeWorkflow = some w2 →
         w2.steps.map (fun x => x.id) = v.steps.map (fun x => x.id)
         ∧ (w2.steps.map (fun x => x.completed)).take l1.length
             = (v.steps.map (fun x => x.completed)).take l1.length) := by
  induction fuel with
  | zero =>
    constructor
    · intro s v step now l1 st l2 hw _ _ _ w2 h2
      have h2x : s.activeWorkflow = some w2 := h2
      rw [hw] at h2x
      injection h2x with h2x
      subst h2x
      exact ⟨rfl, rfl⟩
    · intro s v sid d now l1 st l2 hw _ _ _ w2 h2
      have h2x : s.activeWorkflow = some w2 := h2
      rw [hw] at h2x
      injection h2x with h2x
      subst h2x
      exact ⟨rfl, rfl⟩
  | succ n ih =>
    obtain ⟨ihE, ihC⟩ := ih
    constructor
    · intro s v step now l1 st l2 hw hnd hdec hid w2 h2
      unfold executeStepGo at h2
      rw [hw] at h2
      simp only [] at h2
      revert h2
      cases hh : step.headless with
      | false =>
        intro h2
        simp only [] at h2
        have h2x : s.activeWorkflow = some w2 := h2
        rw [hw] at h2x
        injection h2x with h2x
        subst h2x
        exact ⟨rfl, rfl⟩
      | true =>
        cases hcc : step.completionCondition with
        | none =>
          intro h2
          simp only [] at h2
          have h2x : s.activeWorkflow = some w2 := h2
          rw [hw] at h2x
          injection h2x with h2x
          subst h2x
          exact ⟨rfl, rfl⟩
        | some cond =>
          intro h2
          simp only [] at h2
          by_cases hcd : cond (workflowReducer s (WorkflowAction.setCurrentStep step.id)).data
              = true
          · rw [if_pos hcd] at h2
            simp only [] at h2
            exact ihC (workflowReducer s (WorkflowAction.setCurrentStep step.id)) v step.id
              none now l1 st l2 hw hnd hdec hid w2 h2
          · rw [if_neg hcd] at h2
            have h2x : s.activeWorkflow = some w2 := h2
            rw [hw] at h2x
            injection h2x with h2x
            subst h2x
            exact ⟨rfl, rfl⟩
    · intro s v sid d now l1 st l2 hw hnd hdec hid w2 h2
      unfold completeStepGo at h2
      rw [hw] at h2
      simp only [] at h2
      revert h2
      cases hf : v.steps.find? (fun x => x.id == sid) with
      | none =>
        intro h2
        simp only [] at h2
        have h2x : s.activeWorkflow = some w2 := h2
        rw [hw] at h2x
        injection h2x with h2x
        subst h2x
        exact ⟨rfl, rfl⟩
      | some step0 =>
        intro h2
        simp only [workflowReducer, hw] at h2
        obtain ⟨l1x, l2x, hdecx, hp0, hprex⟩ := find?_decomp _ _ _ hf
        have hstp : (st.id == sid) = true := by rw [hid]; exact beq_self_eq_true sid
        have hpre1 : ∀ y ∈ l1, (y.id == sid) = false := by
          intro y hy
          have hids : v.steps.map (fun x => x.id)
              = l1.map (fun x => x.id) ++ st.id :: l2.map (fun x => x.id) := by
            rw [hdec]; simp
          rw [hids] at hnd
          have hnm : st.id ∉ l1.map (fun x => x.id) := by
            have hmid := List.nodup_middle.mp hnd
            rw [List.nodup_cons] at hmid
            intro hcon
            exact hmid.1 (List.mem_append.mpr (Or.inl hcon))
          rw [beq_eq_false_iff_ne]
          intro hcon
          apply hnm
          rw [hid, ← hcon]
          exact List.mem_map.mpr ⟨y, hy, rfl⟩
        obtain ⟨hleq, hsteq, hl2eq⟩ := decomp_unique (fun x => x.id == sid) l1 st l2 l1x step0
          l2x (hdec ▸ hdecx) hstp hp0 hpre1 hprex
        subst hleq
        subst hsteq
        subst hl2eq
        have hmarksteps : v.steps.map
              (fun x => if x.id == sid then { x with completed := true } else x)
            = l1 ++ (if st.id == sid then { st with completed := true } else st)
                :: l2.map (fun x => if x.id == sid then { x with completed := true } else x) := by
          rw [hdec]
          rw [List.map_append, List.map_cons]
          rw [mark_keeps_others sid l1 hpre1]
        have hflagsv : (v.steps.map (fun x => x.completed)).take l1.length
            = l1.map (fun x => x.completed) := by
          rw [hdec, List.map_append]
          exact take_length_append _ _ _
        have hflagsm : ((v.steps.map
              (fun x => if x.id == sid then { x with completed := true } else x)).map
                (fun x => x.completed)).take l1.length
            = l1.map (fun x => x.completed) := by
          rw [hmarksteps, List.map_append]
          exact take_length_append _ _ _
        by_cases hcond : (((v.steps.map (fun x =>
            if x.id == sid then { x with completed := true } else x)).filter
              (fun x => x.required)).all (fun x => x.completed || x.id == sid)) = true
        · rw [if_pos hcond] at h2
          simp only [workflowReducer] at h2
          simp at h2
        · rw [if_neg hcond] at h2
          revert h2
          cases hnext : findNextStep { v with steps := v.steps.map (fun x =>
              if x.id == sid then { x with completed := true } else x) } sid with
          | none =>
            intro h2
            simp only [] at h2
            injection h2 with h2
            subst h2
            constructor
            · exact mark_ids sid v.steps
            · rw [hflagsm, hflagsv]
          | some nextStep =>
            intro h2
            simp only [] at h2
            unfold findNextStep scanStart at hnext
            have hfidx : List.findIdx? (fun x => x.id == sid)
                ({ v with steps := v.steps.map (fun x =>
                  if x.id == sid then { x with completed := true } else x)
                  : WorkflowDefinition }).steps = some l1.length := by
              show List.findIdx? (fun x => x.id == sid) (v.steps.map (fun x =>
                if x.id == sid then { x with completed := true } else x)) = some l1.length
              rw [hmarksteps]
              apply findIdx?_prefix
              · rw [mark_id]; exact hstp
              · exact hpre1
            rw [hfidx] at hnext
            simp only [] at hnext
            have hdrop : (({ v with steps := v.steps.map (fun x =>
                if x.id == sid then { x with completed := true } else x)
                : WorkflowDefinition }).steps).drop (l1.length + 1)
                = l2.map (fun x => if x.id == sid then { x with completed := true } else x) := by
              show (v.steps.map (fun x =>
                if x.id == sid then { x with completed := true } else x)).drop (l1.length + 1)
                = _
              rw [hmarksteps]
              have hsplit : l1 ++ (if st.id == sid then { st with completed := true } else st)
                  :: l2.map (fun x => if x.id == sid then { x with completed := true } else x)
                  = (l1 ++ [if st.id == sid then { st with completed := true } else st])
                    ++ l2.map (fun x =>
                        if x.id == sid then { x with completed := true } else x) := by
                simp
              rw [hsplit]
              have hlen : l1.length + 1
                  = (l1 ++ [if st.id == sid then { st with completed := true } else st]).length := by
                simp
              rw [hlen]
              exact List.drop_left _ _
            rw [hdrop] at hnext
            obtain ⟨m1, m2, hmdec, _, _⟩ := find?_decomp _ _ _ hnext
            have hdecm : ({ v with steps := v.steps.map (fun x =>
                if x.id == sid then { x with completed := true } else x)
                : WorkflowDefinition }).steps
                = (l1 ++ (if st.id == sid then { st with completed := true } else st) :: m1)
                  ++ nextStep :: m2 := by
              show v.steps.map (fun x =>
                if x.id == sid then { x with completed := true } else x) = _
              rw [hmarksteps, hmdec]
              simp
            have hndm : ((({ v with steps := v.steps.map (fun x =>
                if x.id == sid then { x with completed := true } else x)
                : WorkflowDefinition }).steps).map (fun x => x.id)).Nodup := by
              show ((v.steps.map (fun x =>
                if x.id == sid then { x with completed := true } else x)).map
                  (fun x => x.id)).Nodup
              rw [mark_ids]
              exact hnd
            obtain ⟨hids2, hflags2⟩ := ihE _ _ nextStep now
              (l1 ++ (if st.id == sid then { st with completed := true } else st) :: m1)
              nextStep m2 rfl hndm hdecm rfl w2 h2
            constructor
            · rw [hids2]
              exact mark_ids sid v.steps
            · have hlen1 : l1.length
                  ≤ (l1 ++ (if st.id == sid then { st with completed := true } else st)
                      :: m1).length := by
                simp
              have e1 : ((w2.steps.map (fun x => x.completed)).take
                  (l1 ++ (if st.id == sid then { st with completed := true } else st)
                    :: m1).length).take l1.length
                  = (w2.steps.map (fun x => x.completed)).take l1.length := by
                rw [List.take_take]
                congr 1
                omega
              rw [← e1, hflags2, List.take_take]
              have e2 : min l1.length
                  (l1 ++ (if st.id == sid then { st with completed := true } else st)
                    :: m1).length = l1.length := by
                omega
              rw [e2]
              rw [hflagsm, hflagsv]

/-- C9 (amended): when a workflow is active, its step ids are free of
duplicates and stepId names one of its steps, skipToStep(stepId)
activates the found step with no dependency check of any kind:
SET_CURRENT_STEP is dispatched for it and STEP_STARTED is emitted first,
whatever the dependency state; for a non headless target the whole
workflow — in particular every completed flag — is left unchanged and the
target becomes the current step; for a headless target the automatic
completion may mark the target itself and steps declared after it (as
the C9 counterexample shows), but the id list is preserved and the
completed flag of every step declared before the target position is
unchanged, so no skipped step is retroactively marked complete. -/
theorem C9_skipToStep_behaviour (s : WorkflowState) (v : WorkflowDefinition) (sid : String)
    (step : WorkflowStep) (now : Nat)
    (hw : s.activeWorkflow = some v)
    (hnodup : (v.steps.map (fun x => x.id)).Nodup)
    (hfound : v.steps.find? (fun x => x.id == sid) = some step) :
    (∃ rest, (skipToStep s sid now).2
       = [TraceItem.act (WorkflowAction.setCurrentStep step.id),
          TraceItem.eff (EngineEffect.emit
            (mkEvent WorkflowEventType.stepStarted v.id (some step.id) now none))] ++ rest)
    ∧ (step.headless = false →
        (skipToStep s sid now).1.activeWorkflow = some v
        ∧ (skipToStep s sid now).1.currentStepId = some step.id)
    ∧ (∀ l1 l2, v.steps = l1 ++ step :: l2 →
        ∀ w2, (skipToStep s sid now).1.activeWorkflow = some w2 →
          w2.steps.map (fun x => x.id) = v.steps.map (fun x => x.id)
          ∧ (w2.steps.map (fun x => x.completed)).take l1.length
              = (v.steps.map (fun x => x.completed)).take l1.length) := by
  have hskip : skipToStep s sid now = executeStepGo (engineFuel s) s step now := by
    unfold skipToStep
    rw [hw]
    simp only []
    rw [hfound]
  refine ⟨?_, ?_, ?_⟩
  · rw [hskip]
    rw [show engineFuel s = 2 * v.steps.length + 3 + 1 by simp [engineFuel, hw]]
    unfold executeStepGo
    rw [hw]
    simp only []
    cases hh : step.headless with
    | false =>
      cases hsc : step.screen with
      | none =>
        refine ⟨(if step.hasOnActivate then
            [TraceItem.eff (EngineEffect.hookStepOnActivate step.id)] else []), ?_⟩
        simp [mkEvent]
      | some sc =>
        refine ⟨(if step.hasOnActivate then
            [TraceItem.eff (EngineEffect.hookStepOnActivate step.id)] else [])
          ++ [TraceItem.eff (EngineEffect.navigate sc step.navigationParams)], ?_⟩
        simp [mkEvent]
    | true =>
      cases hcc : step.completionCondition with
      | none =>
        refine ⟨(if step.hasOnActivate then
            [TraceItem.eff (EngineEffect.hookStepOnActivate step.id)] else []), ?_⟩
        simp [mkEvent]
      | some cond =>
        simp only []
        by_cases hcd : cond (workflowReducer s (WorkflowAction.setCurrentStep step.id)).data
            = true
        · rw [if_pos hcd]
          refine ⟨(if step.hasOnActivate then
              [TraceItem.eff (EngineEffect.hookStepOnActivate step.id)] else [])
            ++ (completeStepGo (2 * v.steps.length + 3)
                (workflowReducer s (WorkflowAction.setCurrentStep step.id))
                step.id none now).2, ?_⟩
          simp [mkEvent]
        · rw [if_neg hcd]
          refine ⟨(if step.hasOnActivate then
              [TraceItem.eff (EngineEffect.hookStepOnActivate step.id)] else []), ?_⟩
          simp [mkEvent]
  · intro hh
    rw [hskip]
    rw [show engineFuel s = 2 * v.steps.length + 3 + 1 by simp [engineFuel, hw]]
    unfold executeStepGo
    rw [hw]
    simp only []
    rw [hh]
    simp only []
    constructor
    · simp only [workflowReducer]
      exact hw
    · rfl
  · intro l1 l2 hdec w2 h2
    rw [hskip] at h2
    exact (engine_prefix_preserved (engineFuel s)).1 s v step now l1 step l2 hw hnodup hdec
      rfl w2 h2

theorem C9_witness :
    (stAB.activeWorkflow = some wfAB)
    ∧ ((wfAB.steps.map (fun x => x.id)).Nodup)
    ∧ (wfAB.steps.find? (fun x => x.id == "B")
        = some (mkStep "B" (some "SB") false true false []))
    ∧ (∃ rest, (skipToStep stAB "B" 7).2
        = [TraceItem.act (WorkflowAction.setCurrentStep
             (mkStep "B" (some "SB") false true false []).id),
           TraceItem.eff (EngineEffect.emit (mkEvent WorkflowEventType.stepStarted wfAB.id
             (some (mkStep "B" (some "SB") false true false []).id) 7 none))] ++ rest) :=
  ⟨rfl, by decide, rfl,
   (C9_skipToStep_behaviour stAB wfAB "B" (mkStep "B" (some "SB") false true false []) 7
     rfl (by decide) rfl).1⟩
